import Mathlib

/-!
# Nanvix process scheduler (`src/kernel/pm/sched.c`)

A shallow embedding of the multilevel-feedback-queue scheduler of Nanvix:
`sched`, `stop`, `resume` and `yield`, followed by theorems about them.

Modelling conventions.

* The process table is a total map from slot numbers to process records; a
  `struct process *` is a slot number.  `IDLE`, `FIRST_PROC` and `LAST_PROC`
  are slot numbers supplied by the configuration, since the header that defines
  them is not part of the sources at hand.
* The `int` fields `queue`, `counter`, `priority`, `nice` are unbounded
  integers (signed overflow is undefined behaviour in C and no statement below
  relies on wrap-around); `alarm` and `ticks` are naturals.
* `QUEUE_AMOUNT`, `AGING_FACTOR`, `PRIO_USER`, `PROC_QUANTUM` and the macro
  `IS_VALID` are parameters.
* `sndsig` lives in another file.  Its effect on the record it is sent to is a
  parameter (`Config.sigEffect`); every call is also appended to a ghost trace.
* `switch_to` lives in another file as well; see `switch_to` below.
-/

namespace Nanvix

/-- Process states.  The scheduler names four of them; every other kernel state
is covered by `OTHER`. -/
inductive ProcState where
  | DEAD
  | RUNNING
  | READY
  | STOPPED
  | OTHER (k : Nat)
  deriving DecidableEq, Repr

/-- Signals the scheduler sends. -/
inductive Signal where
  | SIGCHLD
  | SIGALRM
  deriving DecidableEq, Repr

/-- The fields of `struct process` that the scheduler reads or writes. -/
structure Process where
  state : ProcState
  queue : Int
  counter : Int
  priority : Int
  nice : Int
  alarm : Nat
  father : Nat
  deriving DecidableEq, Repr

/-- Compile-time constants, table bounds and collaborators used by `sched.c`
but defined elsewhere. -/
structure Config where
  QUEUE_AMOUNT : Int
  AGING_FACTOR : Int
  PRIO_USER : Int
  PROC_QUANTUM : Int
  IDLE : Nat
  FIRST_PROC : Nat
  LAST_PROC : Nat
  IS_VALID : Process → Bool
  sigEffect : Process → Signal → Process

/-- Global kernel state seen by the scheduler.  `sigTrace` and `switchTrace`
are ghost fields recording the calls of `sndsig` and `switch_to`, most recent
first. -/
structure Kernel where
  proctab : Nat → Process
  curr_proc : Nat
  last_proc : Nat
  ticks : Nat
  sigTrace : List (Nat × Signal)
  switchTrace : List Nat

/-- Write through a process pointer: apply `f` to the record in slot `i`. -/
def Kernel.modify (k : Kernel) (i : Nat) (f : Process → Process) : Kernel :=
  { k with proctab := fun j => if j = i then f (k.proctab j) else k.proctab j }

/-- The call `sndsig(proc, sig)`: the collaborator acts on the target record
and the call is recorded. -/
def sndsig (cfg : Config) (k : Kernel) (proc : Nat) (sig : Signal) : Kernel :=
  { k.modify proc (fun r => cfg.sigEffect r sig) with
    sigTrace := (proc, sig) :: k.sigTrace }

/-- Modelled from the spec: `switch_to` is the context-switch collaborator
(`transferControl`), absent from the sources; it makes `next` the process
occupying the processor (`currentProcess`).  The call is recorded. -/
def switch_to (k : Kernel) (next : Nat) : Kernel :=
  { k with curr_proc := next, switchTrace := next :: k.switchTrace }

/-- `sched(proc)`. -/
def sched (k : Kernel) (proc : Nat) : Kernel :=
  k.modify proc (fun r => { r with state := ProcState.READY, counter := 0 })

/-- `resume(proc)`. -/
def resume (k : Kernel) (proc : Nat) : Kernel :=
  if (k.proctab proc).state = ProcState.STOPPED then sched k proc else k

/-- The slots visited by `for (p = FIRST_PROC; p <= LAST_PROC; p++)`. -/
def procSlots (cfg : Config) : List Nat :=
  List.range' cfg.FIRST_PROC (cfg.LAST_PROC + 1 - cfg.FIRST_PROC)

/-- First part of `yield`: re-schedule the outgoing process and remember it. -/
def reclassify (cfg : Config) (k : Kernel) : Kernel :=
  let k1 :=
    if (k.proctab k.curr_proc).state = ProcState.RUNNING then
      let k0 :=
        if (k.proctab k.curr_proc).queue < cfg.QUEUE_AMOUNT then
          k.modify k.curr_proc (fun r => { r with queue := r.queue + 1 })
        else k
      sched k0 k0.curr_proc
    else if (k.proctab k.curr_proc).state ≠ ProcState.DEAD ∧ k.curr_proc ≠ cfg.IDLE then
      if (k.proctab k.curr_proc).queue > 1 then
        k.modify k.curr_proc (fun r => { r with queue := r.queue - 1 })
      else k
    else k
  { k1 with last_proc := k1.curr_proc }

/-- Body of the alarm loop of `yield` for slot `p`. -/
def alarmStep (cfg : Config) (k : Kernel) (p : Nat) : Kernel :=
  if cfg.IS_VALID (k.proctab p) = false then k
  else if (k.proctab p).alarm ≠ 0 ∧ (k.proctab p).alarm < k.ticks then
    sndsig cfg (k.modify p (fun r => { r with alarm := 0 })) p Signal.SIGALRM
  else k

/-- The alarm loop of `yield`. -/
def checkAlarms (cfg : Config) (k : Kernel) : Kernel :=
  (procSlots cfg).foldl (alarmStep cfg) k

/-- The statement `q->counter++`. -/
def incCounter (k : Kernel) (q : Nat) : Kernel :=
  k.modify q (fun r => { r with counter := r.counter + 1 })

/-- The comparison of the scanned READY process `p` with the incumbent `next`
in the selection loop of `yield`; the loop state is the kernel state together
with the pointer `next`. -/
def compareStep (st : Kernel × Nat) (p : Nat) : Kernel × Nat :=
  let k := st.1
  let next := st.2
  if (k.proctab p).queue = (k.proctab next).queue then
    let weight_p := (k.proctab p).priority + (k.proctab p).nice - (k.proctab p).counter
    let weight_next :=
      (k.proctab next).priority + (k.proctab next).nice - (k.proctab next).counter
    if weight_p < weight_next then (incCounter k next, p)
    else (incCounter k p, next)
  else if (k.proctab p).queue < (k.proctab next).queue then (incCounter k next, p)
  else (incCounter k p, next)

/-- The aging test applied to the scanned process `p` after the comparison. -/
def ageStep (cfg : Config) (st : Kernel × Nat) (p : Nat) : Kernel × Nat :=
  let aging := ((cfg.QUEUE_AMOUNT + 1) - (st.1.proctab p).queue) * cfg.AGING_FACTOR
  if (st.1.proctab p).counter ≥ aging ∧ (st.1.proctab p).queue ≠ 1 then
    ((st.1.modify p (fun r => { r with counter := 0 })).modify p
        (fun r => { r with queue := r.queue - 1 }), st.2)
  else st

/-- Body of the selection loop of `yield` for slot `p`. -/
def chooseStep (cfg : Config) (st : Kernel × Nat) (p : Nat) : Kernel × Nat :=
  if (st.1.proctab p).state ≠ ProcState.READY then st
  else ageStep cfg (compareStep st p) p

/-- The selection loop of `yield`, started with `next = IDLE`. -/
def chooseNext (cfg : Config) (k : Kernel) : Kernel × Nat :=
  (procSlots cfg).foldl (chooseStep cfg) (k, cfg.IDLE)

/-- Last part of `yield`: set up `next` and switch to it. -/
def dispatch (cfg : Config) (st : Kernel × Nat) : Kernel :=
  let k1 := st.1.modify st.2 (fun r => { r with priority := cfg.PRIO_USER })
  let k2 := k1.modify st.2 (fun r => { r with state := ProcState.RUNNING })
  let k3 := k2.modify st.2 (fun r => { r with counter := r.queue * cfg.PROC_QUANTUM })
  switch_to k3 st.2

/-- The kernel state when candidate selection of a cycle begins. -/
def beforeChoice (cfg : Config) (k : Kernel) : Kernel :=
  checkAlarms cfg (reclassify cfg k)

/-- `yield()`: one decision cycle. -/
def yield (cfg : Config) (k : Kernel) : Kernel :=
  dispatch cfg (chooseNext cfg (beforeChoice cfg k))

/-- `stop()`. -/
def stop (cfg : Config) (k : Kernel) : Kernel :=
  let k1 := k.modify k.curr_proc (fun r => { r with state := ProcState.STOPPED })
  let k2 := sndsig cfg k1 (k1.proctab k1.curr_proc).father Signal.SIGCHLD
  yield cfg k2

/-- The process selected by the cycle started in `k`. -/
def chosen (cfg : Config) (k : Kernel) : Nat :=
  (chooseNext cfg (beforeChoice cfg k)).2

/-- A call into the scheduler. -/
inductive Call where
  | sched (proc : Nat)
  | resume (proc : Nat)
  | stop
  | yield
  deriving DecidableEq, Repr

/-- Effect of one call. -/
def Call.run (cfg : Config) (k : Kernel) : Call → Kernel
  | Call.sched p => Nanvix.sched k p
  | Call.resume p => Nanvix.resume k p
  | Call.stop => Nanvix.stop cfg k
  | Call.yield => Nanvix.yield cfg k

/-- Effect of a finite sequence of calls. -/
def runCalls (cfg : Config) (k : Kernel) (cs : List Call) : Kernel :=
  cs.foldl (Call.run cfg) k

/-- Every band lies in `[1, QUEUE_AMOUNT]`. -/
def BandsOk (cfg : Config) (k : Kernel) : Prop :=
  ∀ i, 1 ≤ (k.proctab i).queue ∧ (k.proctab i).queue ≤ cfg.QUEUE_AMOUNT

/-- Signal delivery keeps bands within `[1, QUEUE_AMOUNT]`. -/
def SigKeepsBands (cfg : Config) : Prop :=
  ∀ r s, 1 ≤ r.queue ∧ r.queue ≤ cfg.QUEUE_AMOUNT →
    1 ≤ (cfg.sigEffect r s).queue ∧ (cfg.sigEffect r s).queue ≤ cfg.QUEUE_AMOUNT

/-- The global fields and ghost traces other than the table. -/
def Kernel.globals (k : Kernel) : Nat × Nat × Nat × List (Nat × Signal) × List Nat :=
  (k.curr_proc, k.last_proc, k.ticks, k.sigTrace, k.switchTrace)

/-- The tie-break score computed in the selection loop (`weight_p`,
`weight_next`). -/
def weight (r : Process) : Int :=
  r.priority + r.nice - r.counter

/-- The test of the alarm loop: `(p->alarm) && (p->alarm < ticks)`. -/
def alarmDue (ticks : Nat) (r : Process) : Prop :=
  r.alarm ≠ 0 ∧ r.alarm < ticks

instance (ticks : Nat) (r : Process) : Decidable (alarmDue ticks r) := by
  unfold alarmDue
  infer_instance

/-- Signal delivery leaves the band of the target alone. -/
def SigKeepsQueue (cfg : Config) : Prop :=
  ∀ r s, (cfg.sigEffect r s).queue = r.queue

/-- Signal delivery leaves the band and the counter of a target that is READY
alone; a target in any other state may be changed, for instance woken up
through `sched`. -/
def SigKeepsReady (cfg : Config) : Prop :=
  ∀ r s, r.state = ProcState.READY →
    (cfg.sigEffect r s).queue = r.queue ∧ (cfg.sigEffect r s).counter = r.counter

/-- Signal delivery does not arm an alarm that is disarmed. -/
def SigNoRearm (cfg : Config) : Prop :=
  ∀ r s, r.alarm = 0 → (cfg.sigEffect r s).alarm = 0

/-- Slot `i` is visited by the table scans. -/
def inScan (cfg : Config) (i : Nat) : Prop :=
  cfg.FIRST_PROC ≤ i ∧ i ≤ cfg.LAST_PROC

instance (cfg : Config) (i : Nat) : Decidable (inScan cfg i) := by
  unfold inScan
  infer_instance

/-- The alarm loop signals the record `r`: it is valid and its alarm is due. -/
def fires (cfg : Config) (ticks : Nat) (r : Process) : Prop :=
  cfg.IS_VALID r = true ∧ alarmDue ticks r

instance (cfg : Config) (ticks : Nat) (r : Process) : Decidable (fires cfg ticks r) := by
  unfold fires
  infer_instance

/-- Number of `SIGALRM` signals sent to slot `i` so far. -/
def alarmsSent (k : Kernel) (i : Nat) : Nat :=
  k.sigTrace.count (i, Signal.SIGALRM)

/-- A run of decision cycles; before each cycle the rest of the kernel acts on
the state (the clock advances, processes block or wake up, ...). -/
def runCycles (cfg : Config) (k : Kernel) (envs : List (Kernel → Kernel)) : Kernel :=
  envs.foldl (fun st e => yield cfg (e st)) k

/-- The activity `e` of the rest of the kernel neither sends `SIGALRM` to slot
`p` nor arms the alarm of `p`. -/
def EnvQuiet (p : Nat) (e : Kernel → Kernel) : Prop :=
  ∀ k, alarmsSent (e k) p = alarmsSent k p ∧
    ((k.proctab p).alarm = 0 → ((e k).proctab p).alarm = 0)

/-- The record `r` is at least as good a candidate as `a`: a lower band, or the
same band and a weight that is not larger. -/
def lexle (r a : Process) : Prop :=
  r.queue < a.queue ∨ (r.queue = a.queue ∧ weight r ≤ weight a)

/-! ## Sample configurations and states -/

/-- A sample configuration: four bands, IDLE in slot 0, slots 1 to 3 scanned,
a slot is valid unless its process is DEAD, signal delivery leaves the record of
the target as it is. -/
def sampleCfg : Config where
  QUEUE_AMOUNT := 4
  AGING_FACTOR := 10
  PRIO_USER := 40
  PROC_QUANTUM := 50
  IDLE := 0
  FIRST_PROC := 1
  LAST_PROC := 3
  IS_VALID := fun r => decide (r.state ≠ ProcState.DEAD)
  sigEffect := fun r _ => r

/-- The sample configuration with the smallest positive aging factor. -/
def agingOneCfg : Config :=
  { sampleCfg with AGING_FACTOR := 1 }

/-- A user process record with priority 40, nice 20 and father 0. -/
def userProc (st : ProcState) (queue counter : Int) (alarm : Nat) : Process where
  state := st
  queue := queue
  counter := counter
  priority := 40
  nice := 20
  alarm := alarm
  father := 0

/-- A table with the given records in slots 1, 2, 3 and an idle record, in the
lowest band, everywhere else. -/
def tableOf (idleState : ProcState) (r1 r2 r3 : Process) : Nat → Process :=
  fun i =>
    if i = 1 then r1
    else if i = 2 then r2
    else if i = 3 then r3
    else userProc idleState 4 0 0

/-- A kernel state at clock value 100 with empty traces. -/
def kernelOf (tab : Nat → Process) (curr : Nat) : Kernel where
  proctab := tab
  curr_proc := curr
  last_proc := 0
  ticks := 100
  sigTrace := []
  switchTrace := []

/-- IDLE is running; slots 1, 2, 3 hold READY processes of band 3 with equal
weights. -/
def tieKernel : Kernel :=
  kernelOf (tableOf ProcState.RUNNING (userProc ProcState.READY 3 0 0)
    (userProc ProcState.READY 3 0 0) (userProc ProcState.READY 3 0 0)) 0

/-- Process 1 has blocked (state 4 of the rest of the kernel); process 2 is
STOPPED; process 3 is DEAD. -/
def blockedKernel : Kernel :=
  kernelOf (tableOf ProcState.READY (userProc (ProcState.OTHER 4) 3 20 0)
    (userProc ProcState.STOPPED 2 0 0) (userProc ProcState.DEAD 1 0 0)) 1

/-- Process 2 is running in band 3 and is preempted; process 1 is READY in
band 1. -/
def preemptKernel : Kernel :=
  kernelOf (tableOf ProcState.READY (userProc ProcState.READY 1 0 0)
    (userProc ProcState.RUNNING 3 7 0) (userProc ProcState.DEAD 1 0 0)) 2

/-- Process 1 sleeps with an alarm set for the current clock value 100; process
2 sleeps with an alarm set for 50; IDLE is running. -/
def alarmKernel : Kernel :=
  kernelOf (tableOf ProcState.RUNNING (userProc (ProcState.OTHER 4) 2 0 100)
    (userProc (ProcState.OTHER 4) 2 0 50) (userProc ProcState.DEAD 1 0 0)) 0

/-- The clock advances by 60 ticks. -/
def clockStep (k : Kernel) : Kernel :=
  { k with ticks := k.ticks + 60 }

/-- Signal delivery never puts a process in state RUNNING. -/
def SigNeverRuns (cfg : Config) : Prop :=
  ∀ r s, (cfg.sigEffect r s).state = ProcState.RUNNING → r.state = ProcState.RUNNING

/-- Signal delivery makes a target READY only as `sched` does, with counter 0;
a target that is READY already may also be left with the counter it has. -/
def SigWakesBySched (cfg : Config) : Prop :=
  ∀ r s, (cfg.sigEffect r s).state = ProcState.READY →
    (cfg.sigEffect r s).counter = 0 ∨
      (r.state = ProcState.READY ∧ (cfg.sigEffect r s).counter = r.counter)

/-- The aging test of the selection loop holds for the record `r`. -/
def agingDue (cfg : Config) (r : Process) : Prop :=
  r.counter ≥ ((cfg.QUEUE_AMOUNT + 1) - r.queue) * cfg.AGING_FACTOR ∧ r.queue ≠ 1

instance (cfg : Config) (r : Process) : Decidable (agingDue cfg r) := by
  unfold agingDue
  infer_instance

/-- The record `a` wins the comparison of the selection loop against the
incumbent record `b`: a lower band, or the same band and a smaller weight. -/
def beats (a b : Process) : Prop :=
  a.queue < b.queue ∨ (a.queue = b.queue ∧ weight a < weight b)

instance (a b : Process) : Decidable (beats a b) := by
  unfold beats
  infer_instance

/-- The record `r` after `counter++`. -/
def bumped (r : Process) : Process :=
  { r with counter := r.counter + 1 }

/-- The record `r` after the aging test. -/
def agedRec (cfg : Config) (r : Process) : Process :=
  if agingDue cfg r then { r with counter := 0, queue := r.queue - 1 } else r

/-- IDLE is running in band 4 and is preempted; process 1 is READY in band 4
with the same priority and nice as IDLE; bands are within `[1, 4]`. -/
def idleTieKernel : Kernel :=
  kernelOf (tableOf ProcState.RUNNING (userProc ProcState.READY 4 0 0)
    (userProc ProcState.STOPPED 2 0 0) (userProc ProcState.DEAD 1 0 0)) 0

/-- The sample configuration with another validity test: a slot is valid when
its `father` field is nonzero. -/
def fatherCfg : Config :=
  { sampleCfg with IS_VALID := fun r => decide (r.father ≠ 0) }

/-- IDLE is running; slot 1 is not valid for `fatherCfg` (father 0) but its
record says READY, band 1, alarm 50; slot 2 holds a valid STOPPED process. -/
def staleKernel : Kernel :=
  kernelOf (tableOf ProcState.RUNNING (userProc ProcState.READY 1 0 50)
    { userProc ProcState.STOPPED 2 0 0 with father := 1 } (userProc ProcState.DEAD 1 0 0)) 0

/-- The record `r` cannot reach the aging threshold in this cycle: it is in
band 1, or its counter stays below the threshold even after one increment. -/
def noAging (cfg : Config) (r : Process) : Prop :=
  r.queue = 1 ∨ r.counter + 1 < ((cfg.QUEUE_AMOUNT + 1) - r.queue) * cfg.AGING_FACTOR

instance (cfg : Config) (r : Process) : Decidable (noAging cfg r) := by
  unfold noAging
  infer_instance

/-- The aging threshold of band `q`: `((QUEUE_AMOUNT + 1) - q) * AGING_FACTOR`. -/
def agingThreshold (cfg : Config) (q : Int) : Int :=
  ((cfg.QUEUE_AMOUNT + 1) - q) * cfg.AGING_FACTOR

/-- Number of cycles after which a process passed over from band `n` with
counter 0 is in band 1: one more than the threshold for each band from `n` down
to 2. -/
def agingBound (cfg : Config) : Nat → Int
  | 0 => 0
  | 1 => 0
  | n + 2 => agingBound cfg (n + 1) + (agingThreshold cfg ((n : Int) + 2) + 1)

/-- In the cycle started in `s`, process `p` is not the outgoing process, is not
sent `SIGALRM` and is not the process dispatched. -/
def PassedOver (cfg : Config) (p : Nat) (s : Kernel) : Prop :=
  s.curr_proc ≠ p ∧ ¬ fires cfg s.ticks (s.proctab p) ∧ chosen cfg s ≠ p

instance (cfg : Config) (p : Nat) (s : Kernel) : Decidable (PassedOver cfg p s) := by
  unfold PassedOver
  infer_instance

/-- A run of cycles, as in `runCycles`, in which the rest of the kernel leaves
the record of `p` alone and `p` is passed over in every cycle. -/
def passedOverRun (cfg : Config) (p : Nat) : Kernel → List (Kernel → Kernel) → Prop
  | _, [] => True
  | k, e :: es =>
    (e k).proctab p = k.proctab p ∧ PassedOver cfg p (e k) ∧
      passedOverRun cfg p (yield cfg (e k)) es

/-- The three-process scenario on the state `t` in which candidate selection
begins: `A`, `B`, `C` are scanned in that order, are not IDLE and are READY; no
other scanned slot is READY; IDLE is in a band greater than 3; no alarm is
armed. -/
def TrioAt (cfg : Config) (t : Kernel) (A B C : Nat) : Prop :=
  inScan cfg A ∧ A < B ∧ B < C ∧ inScan cfg C ∧
  A ≠ cfg.IDLE ∧ B ≠ cfg.IDLE ∧ C ≠ cfg.IDLE ∧
  (t.proctab A).state = ProcState.READY ∧ (t.proctab B).state = ProcState.READY ∧
  (t.proctab C).state = ProcState.READY ∧
  (∀ i, inScan cfg i → i ≠ A → i ≠ B → i ≠ C → (t.proctab i).state ≠ ProcState.READY) ∧
  3 < (t.proctab cfg.IDLE).queue ∧
  (∀ i, (t.proctab i).alarm = 0)

/-- A table with the given records in slots 1, 2, 3 and the record `idle`
everywhere else. -/
def tableWith (idle r1 r2 r3 : Process) : Nat → Process :=
  fun i =>
    if i = 1 then r1
    else if i = 2 then r2
    else if i = 3 then r3
    else idle

/-- The sample configuration with three bands only. -/
def threeBandCfg : Config :=
  { sampleCfg with QUEUE_AMOUNT := 3 }

/-- A READY user process in band 3 with counter 0 and priority 100. -/
def highProc : Process :=
  { userProc ProcState.READY 3 0 0 with priority := 100 }

/-- IDLE is running in band 3 with priority 1000; slots 1, 2, 3 hold READY
processes of band 3 with equal priority 100, equal nice and counter 0. -/
def threeBandKernel : Kernel :=
  kernelOf (tableWith { userProc ProcState.RUNNING 3 0 0 with priority := 1000 }
    highProc highProc highProc) 0

/-- Process 3 has blocked; processes 1 and 2 are READY in band 3 with counters 1
and 5; IDLE and the slots beyond the table are in state 0 of the rest of the
kernel. -/
def weightKernel : Kernel :=
  kernelOf (tableOf (ProcState.OTHER 0) (userProc ProcState.READY 3 1 0)
    (userProc ProcState.READY 3 5 0) (userProc (ProcState.OTHER 4) 3 0 0)) 3

/-- Process 1 is READY in band 1, process 2 is READY in band 2 with counter 0;
IDLE is current and not running. -/
def agingKernel : Kernel :=
  kernelOf (tableOf ProcState.READY (userProc ProcState.READY 1 0 0)
    (userProc ProcState.READY 2 0 0) (userProc ProcState.DEAD 1 0 0)) 0

/-- Process 1 blocks and is woken up again before the next cycle. -/
def wakeFirst (k : Kernel) : Kernel :=
  sched k 1

/-- The sample configuration with a signal delivery that wakes its target up: a
process sleeping in state 4 of the rest of the kernel is made READY as `sched`
does (state READY, counter 0); every other target is left as it is. -/
def wakeCfg : Config :=
  { sampleCfg with
    sigEffect := fun r _ =>
      if r.state = ProcState.OTHER 4 then { r with state := ProcState.READY, counter := 0 }
      else r }

/-- Process 2 is running in band 3 with 7 ticks left and an alarm set for tick
60; its father, process 1, sleeps in band 2 with an alarm set for tick 50;
process 3 is DEAD.  The clock is at 100. -/
def wakeKernel : Kernel :=
  kernelOf (tableOf ProcState.READY (userProc (ProcState.OTHER 4) 2 0 50)
    { userProc ProcState.RUNNING 3 7 60 with father := 1 }
    (userProc ProcState.DEAD 1 0 0)) 2

/-- Process 1 is the current process; it has gone to sleep in band 3 with 20
ticks left and an alarm set for tick 50; process 2 is STOPPED; process 3 is
DEAD.  The clock is at 100. -/
def sleeperKernel : Kernel :=
  kernelOf (tableOf ProcState.READY (userProc (ProcState.OTHER 4) 3 20 50)
    (userProc ProcState.STOPPED 2 0 0) (userProc ProcState.DEAD 1 0 0)) 1

/-- Process 1 has blocked; process 2 is STOPPED; slot 3 holds a DEAD process
whose alarm, set for tick 50, is overdue at clock value 100. -/
def deadAlarmKernel : Kernel :=
  kernelOf (tableOf ProcState.READY (userProc (ProcState.OTHER 4) 3 20 0)
    (userProc ProcState.STOPPED 2 0 0) (userProc ProcState.DEAD 1 0 50)) 1

/-! ## Basic facts about writes and loops -/

@[simp] theorem modify_proctab (k : Kernel) (i : Nat) (f : Process → Process) (j : Nat) :
    (k.modify i f).proctab j = if j = i then f (k.proctab j) else k.proctab j := rfl

@[simp] theorem modify_curr_proc (k : Kernel) (i : Nat) (f : Process → Process) :
    (k.modify i f).curr_proc = k.curr_proc := rfl

@[simp] theorem modify_last_proc (k : Kernel) (i : Nat) (f : Process → Process) :
    (k.modify i f).last_proc = k.last_proc := rfl

@[simp] theorem modify_ticks (k : Kernel) (i : Nat) (f : Process → Process) :
    (k.modify i f).ticks = k.ticks := rfl

@[simp] theorem modify_sigTrace (k : Kernel) (i : Nat) (f : Process → Process) :
    (k.modify i f).sigTrace = k.sigTrace := rfl

@[simp] theorem modify_switchTrace (k : Kernel) (i : Nat) (f : Process → Process) :
    (k.modify i f).switchTrace = k.switchTrace := rfl

/-- A property kept by every loop body is kept by the loop. -/
theorem foldl_keeps {α β : Type} (P : α → Prop) (f : α → β → α)
    (h : ∀ a b, P a → P (f a b)) (l : List β) (a : α) (ha : P a) : P (l.foldl f a) := by
  induction l generalizing a with
  | nil => exact ha
  | cons x xs ih => exact ih (f a x) (h a x ha)

theorem chooseStep_globals (cfg : Config) (st : Kernel × Nat) (p : Nat) :
    (chooseStep cfg st p).1.globals = st.1.globals := by
  unfold chooseStep ageStep compareStep
  simp only [incCounter]
  split_ifs <;> rfl

theorem chooseNext_globals (cfg : Config) (k : Kernel) :
    (chooseNext cfg k).1.globals = k.globals := by
  unfold chooseNext
  exact foldl_keeps (fun st => st.1.globals = k.globals) (chooseStep cfg)
    (fun a b ha => (chooseStep_globals cfg a b).trans ha) (procSlots cfg) (k, cfg.IDLE) rfl

theorem alarmStep_switch (cfg : Config) (k : Kernel) (p : Nat) :
    (alarmStep cfg k p).curr_proc = k.curr_proc ∧ (alarmStep cfg k p).last_proc = k.last_proc ∧
      (alarmStep cfg k p).ticks = k.ticks ∧ (alarmStep cfg k p).switchTrace = k.switchTrace := by
  unfold alarmStep
  split_ifs <;> simp [sndsig]

theorem checkAlarms_switch (cfg : Config) (k : Kernel) :
    (checkAlarms cfg k).curr_proc = k.curr_proc ∧ (checkAlarms cfg k).last_proc = k.last_proc ∧
      (checkAlarms cfg k).ticks = k.ticks ∧ (checkAlarms cfg k).switchTrace = k.switchTrace := by
  unfold checkAlarms
  refine foldl_keeps (fun a => a.curr_proc = k.curr_proc ∧ a.last_proc = k.last_proc ∧
      a.ticks = k.ticks ∧ a.switchTrace = k.switchTrace) (alarmStep cfg) ?_ _ _
      ⟨rfl, rfl, rfl, rfl⟩
  intro a b ha
  have h := alarmStep_switch cfg a b
  exact ⟨h.1.trans ha.1, h.2.1.trans ha.2.1, h.2.2.1.trans ha.2.2.1, h.2.2.2.trans ha.2.2.2⟩

theorem reclassify_globals (cfg : Config) (k : Kernel) :
    (reclassify cfg k).globals = (k.curr_proc, k.curr_proc, k.ticks, k.sigTrace, k.switchTrace) := by
  unfold reclassify
  simp only [sched]
  split_ifs <;> rfl

/-! ## The state-transition helpers -/

/-- C9 (schedule effect and frame): `sched(p)` leaves `p` READY with counter 0,
keeps the queue, priority, nice, alarm and father of `p`, keeps every other
process record, and keeps the current process, the last process and the clock. -/
theorem sched_effect_frame (k : Kernel) (p : Nat) :
    ((sched k p).proctab p).state = ProcState.READY ∧
    ((sched k p).proctab p).counter = 0 ∧
    ((sched k p).proctab p).queue = (k.proctab p).queue ∧
    ((sched k p).proctab p).priority = (k.proctab p).priority ∧
    ((sched k p).proctab p).nice = (k.proctab p).nice ∧
    ((sched k p).proctab p).alarm = (k.proctab p).alarm ∧
    ((sched k p).proctab p).father = (k.proctab p).father ∧
    (∀ j, j ≠ p → (sched k p).proctab j = k.proctab j) ∧
    (sched k p).curr_proc = k.curr_proc ∧
    (sched k p).last_proc = k.last_proc ∧
    (sched k p).ticks = k.ticks ∧
    (sched k p).sigTrace = k.sigTrace ∧
    (sched k p).switchTrace = k.switchTrace := by
  refine ⟨?_, ?_, ?_, ?_, ?_, ?_, ?_, ?_, rfl, rfl, rfl, rfl, rfl⟩ <;> simp [sched]
  intro j hj
  simp [hj]

/-- C8 (resume guard): on a STOPPED process `resume` is `sched` (READY, counter
0, the other fields kept); on a process in any other state the whole kernel
state is returned as it was; records of other processes are never touched. -/
theorem resume_guard (k : Kernel) (p : Nat) :
    ((k.proctab p).state = ProcState.STOPPED →
      resume k p = sched k p ∧
      (resume k p).proctab p =
        { k.proctab p with state := ProcState.READY, counter := 0 }) ∧
    ((k.proctab p).state ≠ ProcState.STOPPED → resume k p = k) ∧
    (∀ j, j ≠ p → (resume k p).proctab j = k.proctab j) := by
  refine ⟨fun h => ⟨by simp [resume, h], by simp [resume, h, sched]⟩,
    fun h => by simp [resume, h], fun j hj => ?_⟩
  unfold resume
  split_ifs <;> simp [sched, hj]

/-! ## Dispatch -/

theorem yield_post_facts (cfg : Config) (k : Kernel) :
    ((yield cfg k).proctab (chosen cfg k)).priority = cfg.PRIO_USER ∧
    ((yield cfg k).proctab (chosen cfg k)).state = ProcState.RUNNING ∧
    ((yield cfg k).proctab (chosen cfg k)).counter =
      ((yield cfg k).proctab (chosen cfg k)).queue * cfg.PROC_QUANTUM ∧
    ((yield cfg k).proctab (chosen cfg k)).queue =
      ((chooseNext cfg (beforeChoice cfg k)).1.proctab (chosen cfg k)).queue ∧
    (yield cfg k).switchTrace = chosen cfg k :: k.switchTrace ∧
    (yield cfg k).curr_proc = chosen cfg k ∧
    (yield cfg k).last_proc = k.curr_proc := by
  have hg := chooseNext_globals cfg (beforeChoice cfg k)
  have ha := checkAlarms_switch cfg (reclassify cfg k)
  have hr := reclassify_globals cfg k
  simp only [Kernel.globals, Prod.mk.injEq] at hg hr
  simp only [beforeChoice] at hg
  refine ⟨?_, ?_, ?_, ?_, ?_, ?_, ?_⟩ <;>
    simp [yield, dispatch, switch_to, chosen, beforeChoice, hg.2.2.2.2, hg.2.1, ha.2.2.2,
      ha.2.1, hr.2.2.2.2, hr.2.1]

/-- C10 (dispatch postcondition): at the end of a cycle the selected process has
priority `PRIO_USER`, state RUNNING and counter equal to its band, as left by
the selection scan, times `PROC_QUANTUM`; it is the process handed to
`switch_to`, and `last_proc` is the process that was current when the cycle
began. -/
theorem yield_dispatch_post (cfg : Config) (k : Kernel) :
    ((yield cfg k).proctab (chosen cfg k)).priority = cfg.PRIO_USER ∧
    ((yield cfg k).proctab (chosen cfg k)).state = ProcState.RUNNING ∧
    ((yield cfg k).proctab (chosen cfg k)).counter =
      ((yield cfg k).proctab (chosen cfg k)).queue * cfg.PROC_QUANTUM ∧
    ((yield cfg k).proctab (chosen cfg k)).queue =
      ((chooseNext cfg (beforeChoice cfg k)).1.proctab (chosen cfg k)).queue ∧
    (yield cfg k).switchTrace = chosen cfg k :: k.switchTrace ∧
    (yield cfg k).curr_proc = chosen cfg k ∧
    (yield cfg k).last_proc = k.curr_proc :=
  yield_post_facts cfg k

/-! ## Band bounds -/

theorem bandsOk_modify (cfg : Config) (k : Kernel) (i : Nat) (f : Process → Process)
    (h : BandsOk cfg k)
    (hf : 1 ≤ (f (k.proctab i)).queue ∧ (f (k.proctab i)).queue ≤ cfg.QUEUE_AMOUNT) :
    BandsOk cfg (k.modify i f) := by
  intro j
  by_cases hj : j = i
  · subst hj
    simpa using hf
  · simpa [hj] using h j

theorem bandsOk_sched (cfg : Config) (k : Kernel) (p : Nat) (h : BandsOk cfg k) :
    BandsOk cfg (sched k p) :=
  bandsOk_modify cfg k p _ h (h p)

theorem bandsOk_resume (cfg : Config) (k : Kernel) (p : Nat) (h : BandsOk cfg k) :
    BandsOk cfg (resume k p) := by
  unfold resume
  split_ifs
  · exact bandsOk_sched cfg k p h
  · exact h

theorem bandsOk_sndsig (cfg : Config) (hs : SigKeepsBands cfg) (k : Kernel) (p : Nat)
    (s : Signal) (h : BandsOk cfg k) : BandsOk cfg (sndsig cfg k p s) :=
  bandsOk_modify cfg k p (fun r => cfg.sigEffect r s) h (hs _ s (h p))

theorem bandsOk_reclassify (cfg : Config) (k : Kernel) (h : BandsOk cfg k) :
    BandsOk cfg (reclassify cfg k) := by
  have hc := h k.curr_proc
  have key : ∀ k1 : Kernel, BandsOk cfg k1 →
      BandsOk cfg { k1 with last_proc := k1.curr_proc } := fun k1 h1 => h1
  unfold reclassify
  apply key
  split_ifs with h1 h2 h3 h4
  · exact bandsOk_sched cfg _ _ (bandsOk_modify cfg k _ _ h ⟨by simp; omega, by simp; omega⟩)
  · exact bandsOk_sched cfg _ _ h
  · exact bandsOk_modify cfg k _ _ h ⟨by simp; omega, by simp; omega⟩
  · exact h
  · exact h

theorem bandsOk_alarmStep (cfg : Config) (hs : SigKeepsBands cfg) (k : Kernel) (p : Nat)
    (h : BandsOk cfg k) : BandsOk cfg (alarmStep cfg k p) := by
  unfold alarmStep
  split_ifs
  · exact h
  · exact bandsOk_sndsig cfg hs _ _ _ (bandsOk_modify cfg k p _ h (h p))
  · exact h

theorem bandsOk_checkAlarms (cfg : Config) (hs : SigKeepsBands cfg) (k : Kernel)
    (h : BandsOk cfg k) : BandsOk cfg (checkAlarms cfg k) :=
  foldl_keeps (BandsOk cfg) (alarmStep cfg) (fun a b => bandsOk_alarmStep cfg hs a b)
    (procSlots cfg) k h

theorem bandsOk_incCounter (cfg : Config) (k : Kernel) (q : Nat) (h : BandsOk cfg k) :
    BandsOk cfg (incCounter k q) :=
  bandsOk_modify cfg k q _ h (h q)

theorem bandsOk_compareStep (cfg : Config) (st : Kernel × Nat) (p : Nat)
    (h : BandsOk cfg st.1) : BandsOk cfg (compareStep st p).1 := by
  unfold compareStep
  simp only
  split_ifs <;> exact bandsOk_incCounter cfg _ _ h

theorem bandsOk_ageStep (cfg : Config) (st : Kernel × Nat) (p : Nat)
    (h : BandsOk cfg st.1) : BandsOk cfg (ageStep cfg st p).1 := by
  have hp := h p
  unfold ageStep
  simp only
  split_ifs with hc
  · have h2 : BandsOk cfg (st.1.modify p (fun r => { r with counter := 0 })) :=
      bandsOk_modify cfg st.1 p _ h hp
    refine bandsOk_modify cfg _ p (fun r => { r with queue := r.queue - 1 }) h2 ?_
    have hq := hc.2
    simp
    omega
  · exact h

theorem bandsOk_chooseStep (cfg : Config) (st : Kernel × Nat) (p : Nat)
    (h : BandsOk cfg st.1) : BandsOk cfg (chooseStep cfg st p).1 := by
  unfold chooseStep
  split_ifs
  · exact h
  · exact bandsOk_ageStep cfg _ p (bandsOk_compareStep cfg st p h)

theorem bandsOk_chooseNext (cfg : Config) (k : Kernel) (h : BandsOk cfg k) :
    BandsOk cfg (chooseNext cfg k).1 :=
  foldl_keeps (fun st => BandsOk cfg st.1) (chooseStep cfg)
    (fun a b => bandsOk_chooseStep cfg a b) (procSlots cfg) (k, cfg.IDLE) h

theorem bandsOk_dispatch (cfg : Config) (st : Kernel × Nat) (h : BandsOk cfg st.1) :
    BandsOk cfg (dispatch cfg st) := by
  intro j
  have hj := h j
  simp only [dispatch, switch_to, modify_proctab]
  split_ifs <;> exact hj

theorem bandsOk_yield (cfg : Config) (hs : SigKeepsBands cfg) (k : Kernel)
    (h : BandsOk cfg k) : BandsOk cfg (yield cfg k) :=
  bandsOk_dispatch cfg _ (bandsOk_chooseNext cfg _
    (bandsOk_checkAlarms cfg hs _ (bandsOk_reclassify cfg k h)))

theorem bandsOk_stop (cfg : Config) (hs : SigKeepsBands cfg) (k : Kernel)
    (h : BandsOk cfg k) : BandsOk cfg (stop cfg k) :=
  bandsOk_yield cfg hs _ (bandsOk_sndsig cfg hs _ _ _
    (bandsOk_modify cfg k _ _ h (h _)))

theorem bandsOk_call (cfg : Config) (hs : SigKeepsBands cfg) (k : Kernel) (c : Call)
    (h : BandsOk cfg k) : BandsOk cfg (c.run cfg k) := by
  cases c with
  | sched p => exact bandsOk_sched cfg k p h
  | resume p => exact bandsOk_resume cfg k p h
  | stop => exact bandsOk_stop cfg hs k h
  | yield => exact bandsOk_yield cfg hs k h

/-- C1 (band bounds): if every process record has its band in
`[1, QUEUE_AMOUNT]` and signal delivery keeps bands in that range, then after
any finite sequence of `sched`, `resume`, `stop` and `yield` calls every process
record still has its band in `[1, QUEUE_AMOUNT]`. -/
theorem band_bounds (cfg : Config) (hs : SigKeepsBands cfg) (k : Kernel)
    (h : BandsOk cfg k) (cs : List Call) : BandsOk cfg (runCalls cfg k cs) :=
  foldl_keeps (BandsOk cfg) (Call.run cfg) (fun a c => bandsOk_call cfg hs a c) cs k h

/-! ## Loops over the table -/

/-- Induction rule for a loop `for (p = s; p < s + N; p++)`. -/
theorem range_fold_rule {α : Type} (f : α → Nat → α) (P : Nat → α → Prop) (s N : Nat) (a : α)
    (h0 : P 0 a) (hstep : ∀ n st, n < N → P n st → P (n + 1) (f st (s + n))) :
    P N ((List.range' s N).foldl f a) := by
  have key : ∀ n, n ≤ N → P n ((List.range' s n).foldl f a) := by
    intro n
    induction n with
    | zero => intro _; simpa using h0
    | succ m ih =>
      intro hm
      rw [List.range'_1_concat, List.foldl_append]
      exact hstep m _ (by omega) (ih (by omega))
  exact key N (Nat.le_refl N)

theorem mem_procSlots (cfg : Config) (i : Nat) : i ∈ procSlots cfg ↔ inScan cfg i := by
  unfold procSlots inScan
  rw [List.mem_range'_1]
  omega

/-! ## Frame of the selection loop -/

theorem compareStep_fields (st : Kernel × Nat) (p i : Nat) :
    ((compareStep st p).1.proctab i).state = (st.1.proctab i).state ∧
    ((compareStep st p).1.proctab i).queue = (st.1.proctab i).queue ∧
    ((compareStep st p).1.proctab i).priority = (st.1.proctab i).priority ∧
    ((compareStep st p).1.proctab i).nice = (st.1.proctab i).nice ∧
    ((compareStep st p).1.proctab i).alarm = (st.1.proctab i).alarm ∧
    ((compareStep st p).1.proctab i).father = (st.1.proctab i).father := by
  unfold compareStep
  simp only [incCounter]
  split_ifs <;> simp only [modify_proctab] <;> split_ifs <;> simp

theorem ageStep_fields (cfg : Config) (st : Kernel × Nat) (p i : Nat) :
    ((ageStep cfg st p).1.proctab i).state = (st.1.proctab i).state ∧
    ((ageStep cfg st p).1.proctab i).priority = (st.1.proctab i).priority ∧
    ((ageStep cfg st p).1.proctab i).nice = (st.1.proctab i).nice ∧
    ((ageStep cfg st p).1.proctab i).alarm = (st.1.proctab i).alarm ∧
    ((ageStep cfg st p).1.proctab i).father = (st.1.proctab i).father := by
  unfold ageStep
  simp only
  split_ifs
  · simp only [modify_proctab]
    split_ifs <;> simp
  · simp

theorem chooseStep_fields (cfg : Config) (st : Kernel × Nat) (p i : Nat) :
    ((chooseStep cfg st p).1.proctab i).state = (st.1.proctab i).state ∧
    ((chooseStep cfg st p).1.proctab i).priority = (st.1.proctab i).priority ∧
    ((chooseStep cfg st p).1.proctab i).nice = (st.1.proctab i).nice ∧
    ((chooseStep cfg st p).1.proctab i).alarm = (st.1.proctab i).alarm ∧
    ((chooseStep cfg st p).1.proctab i).father = (st.1.proctab i).father := by
  unfold chooseStep
  split_ifs
  · simp
  · have h1 := ageStep_fields cfg (compareStep st p) p i
    have h2 := compareStep_fields st p i
    exact ⟨h1.1.trans h2.1, h1.2.1.trans h2.2.2.1, h1.2.2.1.trans h2.2.2.2.1,
      h1.2.2.2.1.trans h2.2.2.2.2.1, h1.2.2.2.2.trans h2.2.2.2.2.2⟩

theorem chooseNext_fields (cfg : Config) (k : Kernel) (i : Nat) :
    ((chooseNext cfg k).1.proctab i).state = (k.proctab i).state ∧
    ((chooseNext cfg k).1.proctab i).priority = (k.proctab i).priority ∧
    ((chooseNext cfg k).1.proctab i).nice = (k.proctab i).nice ∧
    ((chooseNext cfg k).1.proctab i).alarm = (k.proctab i).alarm ∧
    ((chooseNext cfg k).1.proctab i).father = (k.proctab i).father := by
  unfold chooseNext
  refine foldl_keeps (fun st : Kernel × Nat =>
      (st.1.proctab i).state = (k.proctab i).state ∧
      (st.1.proctab i).priority = (k.proctab i).priority ∧
      (st.1.proctab i).nice = (k.proctab i).nice ∧
      (st.1.proctab i).alarm = (k.proctab i).alarm ∧
      (st.1.proctab i).father = (k.proctab i).father) (chooseStep cfg) ?_ (procSlots cfg)
      (k, cfg.IDLE) ⟨rfl, rfl, rfl, rfl, rfl⟩
  intro a b ha
  have h := chooseStep_fields cfg a b i
  exact ⟨h.1.trans ha.1, h.2.1.trans ha.2.1, h.2.2.1.trans ha.2.2.1,
    h.2.2.2.1.trans ha.2.2.2.1, h.2.2.2.2.trans ha.2.2.2.2⟩

theorem compareStep_next (st : Kernel × Nat) (p : Nat) :
    (compareStep st p).2 = st.2 ∨ (compareStep st p).2 = p := by
  unfold compareStep
  simp only
  split_ifs <;> simp

theorem ageStep_next (cfg : Config) (st : Kernel × Nat) (p : Nat) :
    (ageStep cfg st p).2 = st.2 := by
  unfold ageStep
  simp only
  split_ifs <;> rfl

theorem chooseStep_next (cfg : Config) (st : Kernel × Nat) (p : Nat) :
    (chooseStep cfg st p).2 = st.2 ∨
      ((chooseStep cfg st p).2 = p ∧ (st.1.proctab p).state = ProcState.READY) := by
  unfold chooseStep
  split_ifs with h
  · exact Or.inl rfl
  · rw [ageStep_next]
    rcases compareStep_next st p with h1 | h1
    · exact Or.inl h1
    · exact Or.inr ⟨h1, by simpa using h⟩

/-- With no READY process among the scanned slots other than IDLE, the
selection loop ends with `next = IDLE`. -/
theorem chooseNext_idle (cfg : Config) (k : Kernel)
    (h : ∀ i, inScan cfg i → i ≠ cfg.IDLE → (k.proctab i).state ≠ ProcState.READY) :
    (chooseNext cfg k).2 = cfg.IDLE := by
  unfold chooseNext procSlots
  refine (range_fold_rule (chooseStep cfg)
    (fun _ st => st.2 = cfg.IDLE ∧ ∀ i, (st.1.proctab i).state = (k.proctab i).state)
    cfg.FIRST_PROC (cfg.LAST_PROC + 1 - cfg.FIRST_PROC) (k, cfg.IDLE) ⟨rfl, fun _ => rfl⟩ ?_).1
  intro n st hn hst
  refine ⟨?_, fun i => ((chooseStep_fields cfg st _ i).1).trans (hst.2 i)⟩
  rcases chooseStep_next cfg st (cfg.FIRST_PROC + n) with h1 | ⟨h1, h2⟩
  · exact h1.trans hst.1
  · by_contra hne
    rw [h1] at hne
    rw [hst.2] at h2
    exact h _ ⟨by omega, by omega⟩ hne h2

theorem dispatch_running (cfg : Config) (st : Kernel × Nat) :
    ((dispatch cfg st).proctab st.2).state = ProcState.RUNNING ∧
    (dispatch cfg st).curr_proc = st.2 ∧
    (dispatch cfg st).switchTrace = st.2 :: st.1.switchTrace := by
  simp [dispatch, switch_to]

/-- C2 (idle fallback): if no scanned process other than IDLE is READY when
candidate selection begins, the cycle selects IDLE, leaves it RUNNING and hands
it to the context switch; and every cycle, from any state, ends with a process
dispatched: one call of `switch_to`, on a process that is RUNNING. -/
theorem idle_fallback (cfg : Config) (k : Kernel)
    (h : ∀ i, inScan cfg i → i ≠ cfg.IDLE →
      ((beforeChoice cfg k).proctab i).state ≠ ProcState.READY) :
    chosen cfg k = cfg.IDLE ∧
    ((yield cfg k).proctab cfg.IDLE).state = ProcState.RUNNING ∧
    (yield cfg k).curr_proc = cfg.IDLE ∧
    (yield cfg k).switchTrace = cfg.IDLE :: k.switchTrace ∧
    (∀ k0 : Kernel, ∃ n, (yield cfg k0).switchTrace = n :: k0.switchTrace ∧
      (yield cfg k0).curr_proc = n ∧ ((yield cfg k0).proctab n).state = ProcState.RUNNING) := by
  have hc : chosen cfg k = cfg.IDLE := chooseNext_idle cfg _ h
  have hp := yield_post_facts cfg k
  rw [hc] at hp
  refine ⟨hc, hp.2.1, hp.2.2.2.2.2.1, hp.2.2.2.2.1, fun k0 => ⟨chosen cfg k0, ?_⟩⟩
  have h0 := yield_post_facts cfg k0
  exact ⟨h0.2.2.2.2.1, h0.2.2.2.2.2.1, h0.2.1⟩

/-! ## The alarm loop -/

theorem alarmStep_spec (cfg : Config) (k : Kernel) (p : Nat) :
    (alarmStep cfg k p).ticks = k.ticks ∧
    (∀ i, (alarmStep cfg k p).proctab i =
      if i = p ∧ fires cfg k.ticks (k.proctab p) then
        cfg.sigEffect { k.proctab p with alarm := 0 } Signal.SIGALRM
      else k.proctab i) ∧
    (∀ i, alarmsSent (alarmStep cfg k p) i =
      alarmsSent k i + if i = p ∧ fires cfg k.ticks (k.proctab p) then 1 else 0) := by
  by_cases hf : fires cfg k.ticks (k.proctab p)
  · have e : alarmStep cfg k p =
        sndsig cfg (k.modify p (fun r => { r with alarm := 0 })) p Signal.SIGALRM := by
      have hd : (k.proctab p).alarm ≠ 0 ∧ (k.proctab p).alarm < k.ticks := hf.2
      unfold alarmStep
      rw [if_neg (by simp [hf.1]), if_pos hd]
    rw [e]
    refine ⟨rfl, fun i => ?_, fun i => ?_⟩
    · by_cases hi : i = p
      · subst hi
        simp [sndsig, hf]
      · simp [sndsig, hi]
    · by_cases hi : i = p
      · subst hi
        simp [sndsig, hf, alarmsSent]
      · have : ¬ p = i := fun h => hi h.symm
        simp [sndsig, hi, alarmsSent, List.count_cons, this]
  · have e : alarmStep cfg k p = k := by
      unfold alarmStep
      by_cases hv : cfg.IS_VALID (k.proctab p) = false
      · rw [if_pos hv]
      · rw [if_neg hv, if_neg]
        intro hd
        exact hf ⟨by simpa using hv, hd⟩
    rw [e]
    simp [hf]

/-- Effect of the alarm loop on every slot: a scanned, valid slot whose alarm is
due is disarmed and signalled once; nothing else changes. -/
theorem checkAlarms_spec (cfg : Config) (k : Kernel) :
    (checkAlarms cfg k).ticks = k.ticks ∧
    (∀ i, (checkAlarms cfg k).proctab i =
      if inScan cfg i ∧ fires cfg k.ticks (k.proctab i) then
        cfg.sigEffect { k.proctab i with alarm := 0 } Signal.SIGALRM
      else k.proctab i) ∧
    (∀ i, alarmsSent (checkAlarms cfg k) i =
      alarmsSent k i + if inScan cfg i ∧ fires cfg k.ticks (k.proctab i) then 1 else 0) := by
  have key := range_fold_rule (alarmStep cfg)
    (fun n st => st.ticks = k.ticks ∧
      (∀ i, st.proctab i =
        if (cfg.FIRST_PROC ≤ i ∧ i < cfg.FIRST_PROC + n) ∧ fires cfg k.ticks (k.proctab i) then
          cfg.sigEffect { k.proctab i with alarm := 0 } Signal.SIGALRM
        else k.proctab i) ∧
      (∀ i, alarmsSent st i = alarmsSent k i +
        if (cfg.FIRST_PROC ≤ i ∧ i < cfg.FIRST_PROC + n) ∧ fires cfg k.ticks (k.proctab i)
        then 1 else 0))
    cfg.FIRST_PROC (cfg.LAST_PROC + 1 - cfg.FIRST_PROC) k ?_ ?_
  · have hiff : ∀ i, (cfg.FIRST_PROC ≤ i ∧
        i < cfg.FIRST_PROC + (cfg.LAST_PROC + 1 - cfg.FIRST_PROC)) ↔ inScan cfg i := by
      intro i
      unfold inScan
      omega
    simp only [hiff] at key
    exact key
  · refine ⟨rfl, fun i => ?_, fun i => ?_⟩
    · rw [if_neg]
      omega
    · rw [if_neg]
      · rfl
      · omega
  · intro n st _ hst
    obtain ⟨ht, hrec, hcnt⟩ := hst
    have hstep := alarmStep_spec cfg st (cfg.FIRST_PROC + n)
    have hself : st.proctab (cfg.FIRST_PROC + n) = k.proctab (cfg.FIRST_PROC + n) := by
      rw [hrec]
      have : ¬ (cfg.FIRST_PROC ≤ cfg.FIRST_PROC + n ∧
          cfg.FIRST_PROC + n < cfg.FIRST_PROC + n) := by omega
      simp [this]
    rw [ht, hself] at hstep
    refine ⟨hstep.1, fun i => ?_, fun i => ?_⟩
    · rw [hstep.2.1 i]
      by_cases hi : i = cfg.FIRST_PROC + n
      · subst hi
        have : cfg.FIRST_PROC ≤ cfg.FIRST_PROC + n ∧
            cfg.FIRST_PROC + n < cfg.FIRST_PROC + (n + 1) := by omega
        simp [this, hself]
      · have hiff : (cfg.FIRST_PROC ≤ i ∧ i < cfg.FIRST_PROC + (n + 1)) ↔
            (cfg.FIRST_PROC ≤ i ∧ i < cfg.FIRST_PROC + n) := by omega
        simp only [hi, false_and, if_false, hiff]
        exact hrec i
    · rw [hstep.2.2 i, hcnt i]
      by_cases hi : i = cfg.FIRST_PROC + n
      · subst hi
        have h1 : cfg.FIRST_PROC ≤ cfg.FIRST_PROC + n ∧
            cfg.FIRST_PROC + n < cfg.FIRST_PROC + (n + 1) := by omega
        have h2 : ¬ (cfg.FIRST_PROC ≤ cfg.FIRST_PROC + n ∧
            cfg.FIRST_PROC + n < cfg.FIRST_PROC + n) := by omega
        simp [h1, h2]
      · have hiff : (cfg.FIRST_PROC ≤ i ∧ i < cfg.FIRST_PROC + (n + 1)) ↔
            (cfg.FIRST_PROC ≤ i ∧ i < cfg.FIRST_PROC + n) := by omega
        simp only [hi, false_and, if_false, hiff, Nat.add_zero]

theorem reclassify_alarm (cfg : Config) (k : Kernel) (i : Nat) :
    ((reclassify cfg k).proctab i).alarm = (k.proctab i).alarm := by
  unfold reclassify
  simp only [sched]
  split_ifs <;> simp only [modify_proctab, modify_curr_proc] <;> split_ifs <;> rfl

theorem dispatch_alarm (cfg : Config) (st : Kernel × Nat) (i : Nat) :
    ((dispatch cfg st).proctab i).alarm = (st.1.proctab i).alarm ∧
    (dispatch cfg st).sigTrace = st.1.sigTrace := by
  refine ⟨?_, rfl⟩
  simp only [dispatch, switch_to, modify_proctab]
  split_ifs <;> rfl

/-- Effect of one cycle on the alarm of slot `i` and on the signals sent to it. -/
theorem yield_alarm_facts (cfg : Config) (k : Kernel) (i : Nat) :
    ((yield cfg k).proctab i).alarm =
      (if inScan cfg i ∧ fires cfg k.ticks ((reclassify cfg k).proctab i) then
        (cfg.sigEffect { (reclassify cfg k).proctab i with alarm := 0 } Signal.SIGALRM).alarm
      else (k.proctab i).alarm) ∧
    alarmsSent (yield cfg k) i = alarmsSent k i +
      (if inScan cfg i ∧ fires cfg k.ticks ((reclassify cfg k).proctab i) then 1 else 0) := by
  have hr := reclassify_globals cfg k
  have ha := checkAlarms_spec cfg (reclassify cfg k)
  have hc := chooseNext_globals cfg (beforeChoice cfg k)
  have hf := chooseNext_fields cfg (beforeChoice cfg k) i
  have hd := dispatch_alarm cfg (chooseNext cfg (beforeChoice cfg k)) i
  simp only [Kernel.globals, Prod.mk.injEq] at hr hc
  have ht : (reclassify cfg k).ticks = k.ticks := hr.2.2.1
  rw [ht] at ha
  constructor
  · unfold yield
    rw [hd.1, hf.2.2.2.1]
    unfold beforeChoice
    rw [ha.2.1 i]
    split_ifs
    · rfl
    · exact reclassify_alarm cfg k i
  · have e1 : alarmsSent (yield cfg k) i = alarmsSent (checkAlarms cfg (reclassify cfg k)) i := by
      unfold alarmsSent yield
      rw [hd.2, hc.2.2.2.1]
      rfl
    have e2 : alarmsSent (reclassify cfg k) i = alarmsSent k i := by
      unfold alarmsSent
      rw [hr.2.2.2.1]
    rw [e1, ha.2.2 i, e2]

theorem yield_alarm_once (cfg : Config) (hs : SigNoRearm cfg) (k : Kernel) (p : Nat) :
    alarmsSent (yield cfg k) p ≤ alarmsSent k p + 1 ∧
    (alarmsSent (yield cfg k) p ≠ alarmsSent k p → ((yield cfg k).proctab p).alarm = 0) ∧
    ((k.proctab p).alarm = 0 →
      alarmsSent (yield cfg k) p = alarmsSent k p ∧ ((yield cfg k).proctab p).alarm = 0) := by
  obtain ⟨h1, h2⟩ := yield_alarm_facts cfg k p
  by_cases hc : inScan cfg p ∧ fires cfg k.ticks ((reclassify cfg k).proctab p)
  · rw [if_pos hc] at h1 h2
    have hz : ((yield cfg k).proctab p).alarm = 0 := by
      rw [h1]
      exact hs _ _ rfl
    have hne : (k.proctab p).alarm ≠ 0 := by
      have := hc.2.2.1
      rwa [reclassify_alarm] at this
    exact ⟨by omega, fun _ => hz, fun h0 => absurd h0 hne⟩
  · rw [if_neg hc] at h1 h2
    exact ⟨by omega, fun hne => absurd h2 hne, fun h0 => ⟨h2, h1.trans h0⟩⟩

/-- C6, amended (alarm expiry condition): in every cycle, for every scanned slot
`p` that is valid when the alarm loop runs, `SIGALRM` is raised against `p`
(exactly once) and the alarm of `p` is set to 0 if and only if the alarm is
nonzero and strictly smaller than `ticks`; otherwise `p` is not signalled and
its alarm is kept.  Signal delivery is assumed not to arm alarms. -/
theorem alarm_expiry (cfg : Config) (hs : SigNoRearm cfg) (k : Kernel) (p : Nat)
    (hp : inScan cfg p) (hv : cfg.IS_VALID ((reclassify cfg k).proctab p) = true) :
    ((alarmsSent (yield cfg k) p = alarmsSent k p + 1 ∧ ((yield cfg k).proctab p).alarm = 0) ↔
      ((k.proctab p).alarm ≠ 0 ∧ (k.proctab p).alarm < k.ticks)) ∧
    (¬ ((k.proctab p).alarm ≠ 0 ∧ (k.proctab p).alarm < k.ticks) →
      alarmsSent (yield cfg k) p = alarmsSent k p ∧
      ((yield cfg k).proctab p).alarm = (k.proctab p).alarm) := by
  obtain ⟨h1, h2⟩ := yield_alarm_facts cfg k p
  have hiff : (inScan cfg p ∧ fires cfg k.ticks ((reclassify cfg k).proctab p)) ↔
      ((k.proctab p).alarm ≠ 0 ∧ (k.proctab p).alarm < k.ticks) := by
    unfold fires alarmDue
    rw [reclassify_alarm]
    exact ⟨fun h => h.2.2, fun h => ⟨hp, hv, h⟩⟩
  by_cases hc : (k.proctab p).alarm ≠ 0 ∧ (k.proctab p).alarm < k.ticks
  · rw [if_pos (hiff.2 hc)] at h1 h2
    refine ⟨⟨fun _ => hc, fun _ => ⟨h2, ?_⟩⟩, fun hn => absurd hc hn⟩
    rw [h1]
    exact hs _ _ rfl
  · rw [if_neg (fun h => hc (hiff.1 h))] at h1 h2
    refine ⟨⟨fun h => ?_, fun h => absurd h hc⟩, fun _ => ⟨h2, h1⟩⟩
    have := h.1
    omega

/-- C7 (alarm at most once): over any run of decision cycles, with arbitrary
clock values and arbitrary activity of the rest of the kernel between cycles
that neither signals `p` nor arms its alarm, `SIGALRM` is raised against `p` at
most once; once it has been raised the alarm of `p` is 0; and a process whose
alarm is 0 is never signalled. -/
theorem alarm_at_most_once (cfg : Config) (hs : SigNoRearm cfg) (p : Nat)
    (envs : List (Kernel → Kernel)) (henv : ∀ e ∈ envs, EnvQuiet p e) (k : Kernel) :
    alarmsSent (runCycles cfg k envs) p ≤ alarmsSent k p + 1 ∧
    (alarmsSent (runCycles cfg k envs) p ≠ alarmsSent k p →
      ((runCycles cfg k envs).proctab p).alarm = 0) ∧
    ((k.proctab p).alarm = 0 →
      alarmsSent (runCycles cfg k envs) p = alarmsSent k p ∧
      ((runCycles cfg k envs).proctab p).alarm = 0) := by
  induction envs generalizing k with
  | nil =>
    exact ⟨Nat.le_succ _, fun h => absurd rfl h, fun h => ⟨rfl, h⟩⟩
  | cons e es ih =>
    have he := henv e (List.mem_cons_self e es)
    have ih1 := ih (fun e1 h1 => henv e1 (List.mem_cons_of_mem e h1)) (yield cfg (e k))
    have hy := yield_alarm_once cfg hs (e k) p
    have hk := he k
    have hrun : runCycles cfg k (e :: es) = runCycles cfg (yield cfg (e k)) es := rfl
    rw [hrun]
    obtain ⟨a1, a2, a3⟩ := ih1
    obtain ⟨b1, b2, b3⟩ := hy
    obtain ⟨c1, c2⟩ := hk
    rw [c1] at b1 b2 b3
    refine ⟨?_, ?_, ?_⟩
    · by_cases hq : alarmsSent (yield cfg (e k)) p = alarmsSent k p
      · omega
      · have := (a3 (b2 hq)).1
        omega
    · intro hne
      by_cases hq : alarmsSent (yield cfg (e k)) p = alarmsSent k p
      · exact a2 (by rw [hq]; exact hne)
      · exact (a3 (b2 hq)).2
    · intro h0
      have h1 := b3 (c2 h0)
      have h2 := a3 h1.2
      exact ⟨h2.1.trans h1.1, h2.2⟩

/-! ## The incumbent of the selection loop -/

theorem chooseStep_other (cfg : Config) (st : Kernel × Nat) (p i : Nat)
    (h1 : i ≠ p) (h2 : i ≠ st.2) : (chooseStep cfg st p).1.proctab i = st.1.proctab i := by
  unfold chooseStep ageStep compareStep
  simp only [incCounter]
  split_ifs <;> simp [h1, h2]

/-- The incumbent after a step is at least as good as the incumbent before. -/
theorem chooseStep_mono (cfg : Config) (st : Kernel × Nat) (p : Nat) :
    lexle ((chooseStep cfg st p).1.proctab (chooseStep cfg st p).2) (st.1.proctab st.2) := by
  unfold chooseStep ageStep compareStep lexle weight
  simp only [incCounter]
  by_cases hp : p = st.2
  · subst hp
    split_ifs <;> (simp at *; try omega)
  · have hp2 : ¬ st.2 = p := fun h => hp h.symm
    split_ifs <;> simp [hp, hp2] at * <;> omega

/-- After a READY process has been scanned, the incumbent is at least as good as
that process was. -/
theorem chooseStep_scanned (cfg : Config) (st : Kernel × Nat) (p : Nat)
    (hr : (st.1.proctab p).state = ProcState.READY) :
    lexle ((chooseStep cfg st p).1.proctab (chooseStep cfg st p).2) (st.1.proctab p) := by
  unfold chooseStep
  rw [if_neg (not_not.mpr hr)]
  unfold ageStep compareStep lexle weight
  simp only [incCounter]
  by_cases hp : p = st.2
  · subst hp
    split_ifs <;> (simp at *; try omega)
  · have hp2 : ¬ st.2 = p := fun h => hp h.symm
    split_ifs <;> simp [hp, hp2] at * <;> omega

/-- A scanned process that is not strictly better than the incumbent does not
replace it. -/
theorem chooseStep_loses (cfg : Config) (st : Kernel × Nat) (p : Nat)
    (h : lexle (st.1.proctab st.2) (st.1.proctab p)) : (chooseStep cfg st p).2 = st.2 := by
  unfold lexle weight at h
  unfold chooseStep ageStep compareStep
  simp only [incCounter]
  split_ifs <;> first | rfl | (exfalso; omega)

theorem lexle_trans {a b c : Process} (h1 : lexle a b) (h2 : lexle b c) : lexle a c := by
  unfold lexle at *
  omega

/-- State of the selection loop after `n` slots, as far as two tied processes
`A < B` are concerned. -/
theorem chooseNext_tie (cfg : Config) (k : Kernel) (A B : Nat)
    (hA : inScan cfg A) (hAB : A < B) (hB : inScan cfg B)
    (hAi : A ≠ cfg.IDLE) (hBi : B ≠ cfg.IDLE)
    (hAr : (k.proctab A).state = ProcState.READY)
    (hq : (k.proctab A).queue = (k.proctab B).queue)
    (hw : weight (k.proctab A) = weight (k.proctab B)) :
    (chooseNext cfg k).2 ≠ B := by
  unfold inScan at hA hB
  have key := range_fold_rule (chooseStep cfg)
    (fun n st =>
      (st.2 = cfg.IDLE ∨ (cfg.FIRST_PROC ≤ st.2 ∧ st.2 < cfg.FIRST_PROC + n)) ∧
      (∀ i, ¬ (cfg.FIRST_PROC ≤ i ∧ i < cfg.FIRST_PROC + n) → i ≠ cfg.IDLE →
        st.1.proctab i = k.proctab i) ∧
      (A < cfg.FIRST_PROC + n → lexle (st.1.proctab st.2) (k.proctab A)) ∧
      (B < cfg.FIRST_PROC + n → st.2 ≠ B))
    cfg.FIRST_PROC (cfg.LAST_PROC + 1 - cfg.FIRST_PROC) (k, cfg.IDLE) ?_ ?_
  · exact key.2.2.2 (by omega)
  · exact ⟨Or.inl rfl, fun _ _ _ => rfl, fun h => by omega, fun h => by omega⟩
  · intro n st _ hst
    obtain ⟨h1, h2, h3, h4⟩ := hst
    have hnext := chooseStep_next cfg st (cfg.FIRST_PROC + n)
    have hfresh : ∀ i, ¬ (cfg.FIRST_PROC ≤ i ∧ i < cfg.FIRST_PROC + n) → i ≠ cfg.IDLE →
        i ≠ st.2 := by
      intro i hi hi2 he
      rcases h1 with h1 | h1
      · exact hi2 (he.trans h1)
      · exact hi (he ▸ h1)
    refine ⟨?_, ?_, ?_, ?_⟩
    · rcases hnext with e | ⟨e, _⟩
      · rw [e]
        rcases h1 with h1 | h1
        · exact Or.inl h1
        · exact Or.inr ⟨h1.1, by omega⟩
      · rw [e]
        exact Or.inr ⟨by omega, by omega⟩
    · intro i hi hi2
      have hi3 : ¬ (cfg.FIRST_PROC ≤ i ∧ i < cfg.FIRST_PROC + n) := by omega
      rw [chooseStep_other cfg st _ i (by omega) (hfresh i hi3 hi2)]
      exact h2 i hi3 hi2
    · intro hlt
      by_cases hA2 : A < cfg.FIRST_PROC + n
      · exact lexle_trans (chooseStep_mono cfg st _) (h3 hA2)
      · have hAe : A = cfg.FIRST_PROC + n := by omega
        have hrec : st.1.proctab A = k.proctab A := h2 A (by omega) hAi
        rw [← hAe, ← hrec]
        exact chooseStep_scanned cfg st A (by rw [hrec]; exact hAr)
    · intro hlt
      by_cases hB2 : B < cfg.FIRST_PROC + n
      · rcases hnext with e | ⟨e, _⟩
        · rw [e]
          exact h4 hB2
        · rw [e]
          omega
      · have hBe : B = cfg.FIRST_PROC + n := by omega
        have hrec : st.1.proctab B = k.proctab B := h2 B (by omega) hBi
        have hle : lexle (st.1.proctab st.2) (st.1.proctab B) := by
          have h5 := h3 (by omega)
          rw [hrec]
          unfold lexle at *
          omega
        rw [← hBe, chooseStep_loses cfg st B hle]
        exact fun e => hfresh B (by omega) hBi e.symm

/-- C3 (deterministic tie-break): if, when candidate selection begins, two
distinct non-IDLE processes `A` and `B` are such that `A` is READY and scanned
before `B`, they are in the same band and `priority + nice - counter` is the
same for both, then `B` (READY or not) is not the process selected and
dispatched by the cycle. -/
theorem tie_break_later_loses (cfg : Config) (k : Kernel) (A B : Nat)
    (hA : inScan cfg A) (hAB : A < B) (hB : inScan cfg B)
    (hAi : A ≠ cfg.IDLE) (hBi : B ≠ cfg.IDLE)
    (hAr : ((beforeChoice cfg k).proctab A).state = ProcState.READY)
    (hq : ((beforeChoice cfg k).proctab A).queue = ((beforeChoice cfg k).proctab B).queue)
    (hw : ((beforeChoice cfg k).proctab A).priority + ((beforeChoice cfg k).proctab A).nice -
        ((beforeChoice cfg k).proctab A).counter =
      ((beforeChoice cfg k).proctab B).priority + ((beforeChoice cfg k).proctab B).nice -
        ((beforeChoice cfg k).proctab B).counter) :
    chosen cfg k ≠ B ∧ (yield cfg k).curr_proc ≠ B ∧
      (yield cfg k).switchTrace = chosen cfg k :: k.switchTrace := by
  have hc : chosen cfg k ≠ B := chooseNext_tie cfg _ A B hA hAB hB hAi hBi hAr hq hw
  have hp := yield_post_facts cfg k
  exact ⟨hc, by rw [hp.2.2.2.2.2.1]; exact hc, hp.2.2.2.2.1⟩

/-! ## Bands through one cycle -/

theorem chooseStep_queue_other (cfg : Config) (st : Kernel × Nat) (p i : Nat) (h : i ≠ p) :
    ((chooseStep cfg st p).1.proctab i).queue = (st.1.proctab i).queue := by
  unfold chooseStep ageStep compareStep
  simp only [incCounter]
  split_ifs <;> simp only [modify_proctab, if_neg h] <;> split_ifs <;> rfl

theorem chooseStep_queue_notReady (cfg : Config) (st : Kernel × Nat) (p i : Nat)
    (h : (st.1.proctab i).state ≠ ProcState.READY) :
    ((chooseStep cfg st p).1.proctab i).queue = (st.1.proctab i).queue := by
  by_cases hi : i = p
  · subst hi
    unfold chooseStep
    rw [if_pos h]
  · exact chooseStep_queue_other cfg st p i hi

theorem chooseNext_queue_notReady (cfg : Config) (k : Kernel) (i : Nat)
    (h : (k.proctab i).state ≠ ProcState.READY) :
    ((chooseNext cfg k).1.proctab i).queue = (k.proctab i).queue := by
  unfold chooseNext
  refine (foldl_keeps (fun st : Kernel × Nat =>
      (st.1.proctab i).queue = (k.proctab i).queue ∧
      (st.1.proctab i).state = (k.proctab i).state) (chooseStep cfg) ?_ (procSlots cfg)
      (k, cfg.IDLE) ⟨rfl, rfl⟩).1
  intro a b ha
  refine ⟨?_, (chooseStep_fields cfg a b i).1.trans ha.2⟩
  rw [chooseStep_queue_notReady cfg a b i (by rw [ha.2]; exact h)]
  exact ha.1

theorem dispatch_queue (cfg : Config) (st : Kernel × Nat) (i : Nat) :
    ((dispatch cfg st).proctab i).queue = (st.1.proctab i).queue := by
  simp only [dispatch, switch_to, modify_proctab]
  split_ifs <;> rfl

theorem checkAlarms_queue (cfg : Config) (hs : SigKeepsQueue cfg) (k : Kernel) (i : Nat) :
    ((checkAlarms cfg k).proctab i).queue = (k.proctab i).queue := by
  rw [(checkAlarms_spec cfg k).2.1 i]
  split_ifs
  · rw [hs]
  · rfl

theorem checkAlarms_ready (cfg : Config) (hs : SigKeepsReady cfg) (k : Kernel) (i : Nat)
    (hr : (k.proctab i).state = ProcState.READY) :
    ((checkAlarms cfg k).proctab i).queue = (k.proctab i).queue ∧
    ((checkAlarms cfg k).proctab i).counter = (k.proctab i).counter := by
  rw [(checkAlarms_spec cfg k).2.1 i]
  split_ifs
  · exact hs { k.proctab i with alarm := 0 } _ hr
  · exact ⟨rfl, rfl⟩

/-- Record of the outgoing process after the first part of `yield`. -/
theorem reclassify_curr (cfg : Config) (k : Kernel) :
    ((k.proctab k.curr_proc).state = ProcState.RUNNING →
      (reclassify cfg k).proctab k.curr_proc =
        { k.proctab k.curr_proc with
          state := ProcState.READY
          counter := 0
          queue := if (k.proctab k.curr_proc).queue < cfg.QUEUE_AMOUNT
            then (k.proctab k.curr_proc).queue + 1 else (k.proctab k.curr_proc).queue }) ∧
    ((k.proctab k.curr_proc).state ≠ ProcState.RUNNING →
      (k.proctab k.curr_proc).state ≠ ProcState.DEAD → k.curr_proc ≠ cfg.IDLE →
      (reclassify cfg k).proctab k.curr_proc =
        { k.proctab k.curr_proc with
          queue := if (k.proctab k.curr_proc).queue > 1
            then (k.proctab k.curr_proc).queue - 1 else (k.proctab k.curr_proc).queue }) := by
  constructor
  · intro h
    unfold reclassify
    simp only [if_pos h, sched]
    split_ifs <;> simp
  · intro h1 h2 h3
    unfold reclassify
    simp only [if_neg h1, if_pos (And.intro h2 h3)]
    split_ifs <;> simp

theorem chooseStep_counter_other (cfg : Config) (st : Kernel × Nat) (p i : Nat) (h : i ≠ p) :
    ((chooseStep cfg st p).1.proctab i).counter = (st.1.proctab i).counter ∨
    (i = st.2 ∧ ((chooseStep cfg st p).1.proctab i).counter = (st.1.proctab i).counter + 1 ∧
      (chooseStep cfg st p).2 = p) := by
  by_cases hi : i = st.2
  · subst hi
    have hp : ¬ p = st.2 := fun e => h e.symm
    unfold chooseStep ageStep compareStep
    simp only [incCounter]
    split_ifs <;> simp [h, hp]
  · exact Or.inl (by rw [chooseStep_other cfg st p i h hi])

theorem compareStep_counter_le (st : Kernel × Nat) (p i : Nat) :
    (st.1.proctab i).counter ≤ ((compareStep st p).1.proctab i).counter ∧
    ((compareStep st p).1.proctab i).counter ≤ (st.1.proctab i).counter + 1 := by
  unfold compareStep
  simp only [incCounter]
  split_ifs <;> simp only [modify_proctab] <;> split_ifs <;> simp

theorem ageStep_below (cfg : Config) (st : Kernel × Nat) (p : Nat)
    (h : (st.1.proctab p).counter <
      ((cfg.QUEUE_AMOUNT + 1) - (st.1.proctab p).queue) * cfg.AGING_FACTOR) :
    ageStep cfg st p = st := by
  unfold ageStep
  simp only
  rw [if_neg]
  intro hc
  exact absurd hc.1 (not_le.mpr h)

/-- A scanned process that stays below the aging threshold keeps its band. -/
theorem chooseStep_self_band (cfg : Config) (st : Kernel × Nat) (p : Nat)
    (h : (st.1.proctab p).counter + 1 <
      ((cfg.QUEUE_AMOUNT + 1) - (st.1.proctab p).queue) * cfg.AGING_FACTOR) :
    ((chooseStep cfg st p).1.proctab p).queue = (st.1.proctab p).queue := by
  unfold chooseStep
  split_ifs
  · rfl
  · have hq := (compareStep_fields st p p).2.1
    have hc := (compareStep_counter_le st p p).2
    rw [ageStep_below cfg (compareStep st p) p (by rw [hq]; linarith)]
    exact hq

theorem le_mul_of_one_le (x a : Int) (hx : 1 ≤ x) (ha : 0 ≤ a) : a ≤ x * a := by
  nlinarith [mul_nonneg (sub_nonneg.mpr hx) ha]

/-- A process that is READY with counter 0 when candidate selection begins keeps
its band through the selection loop, unless the aging threshold is so small that
it can be reached within one cycle. -/
theorem chooseNext_keeps_band (cfg : Config) (k : Kernel) (c : Nat)
    (h0 : (k.proctab c).counter = 0) (hq : (k.proctab c).queue ≤ cfg.QUEUE_AMOUNT)
    (hage : ¬ inScan cfg c ∨ (2 ≤ cfg.AGING_FACTOR ∧ c ≠ cfg.IDLE) ∨ 3 ≤ cfg.AGING_FACTOR) :
    ((chooseNext cfg k).1.proctab c).queue = (k.proctab c).queue := by
  have key := range_fold_rule (chooseStep cfg)
    (fun n st =>
      (st.2 = cfg.IDLE ∨ (cfg.FIRST_PROC ≤ st.2 ∧ st.2 < cfg.FIRST_PROC + n)) ∧
      (st.1.proctab c).queue = (k.proctab c).queue ∧
      (¬ (cfg.FIRST_PROC ≤ c ∧ c < cfg.FIRST_PROC + n) →
        (st.1.proctab c).counter = 0 ∨
        ((st.1.proctab c).counter = 1 ∧ st.2 ≠ c ∧ c = cfg.IDLE)))
    cfg.FIRST_PROC (cfg.LAST_PROC + 1 - cfg.FIRST_PROC) (k, cfg.IDLE) ?_ ?_
  · exact key.2.1
  · exact ⟨Or.inl rfl, rfl, fun _ => Or.inl h0⟩
  · intro n st hn hst
    obtain ⟨h1, h2, h3⟩ := hst
    have hnext := chooseStep_next cfg st (cfg.FIRST_PROC + n)
    refine ⟨?_, ?_, ?_⟩
    · rcases hnext with e | ⟨e, _⟩
      · rw [e]
        rcases h1 with h1 | h1
        · exact Or.inl h1
        · exact Or.inr ⟨h1.1, by omega⟩
      · rw [e]
        exact Or.inr ⟨by omega, by omega⟩
    · by_cases hc : c = cfg.FIRST_PROC + n
      · have hscan : inScan cfg c := by
          unfold inScan
          omega
        have h4 := h3 (by omega)
        have hx : 1 ≤ cfg.QUEUE_AMOUNT + 1 - (st.1.proctab c).queue := by
          rw [h2]
          omega
        have hthr : (st.1.proctab c).counter + 1 <
            ((cfg.QUEUE_AMOUNT + 1) - (st.1.proctab c).queue) * cfg.AGING_FACTOR := by
          rcases hage with ha | ⟨ha, hi⟩ | ha
          · exact absurd hscan ha
          · have := le_mul_of_one_le _ cfg.AGING_FACTOR hx (by omega)
            rcases h4 with h4 | ⟨_, _, h4⟩
            · omega
            · exact absurd h4 hi
          · have := le_mul_of_one_le _ cfg.AGING_FACTOR hx (by omega)
            rcases h4 with h4 | ⟨h4, _, _⟩ <;> omega
        rw [← hc, chooseStep_self_band cfg st c hthr]
        exact h2
      · rw [chooseStep_queue_other cfg st _ c hc]
        exact h2
    · intro hun
      have hc : c ≠ cfg.FIRST_PROC + n := by omega
      have h4 := h3 (by omega)
      rcases chooseStep_counter_other cfg st (cfg.FIRST_PROC + n) c hc with e | ⟨e1, e2, e3⟩
      · rw [e]
        rcases h4 with h4 | ⟨h4, h5, h6⟩
        · exact Or.inl h4
        · refine Or.inr ⟨h4, ?_, h6⟩
          rcases hnext with e | ⟨e, _⟩
          · rw [e]
            exact h5
          · rw [e]
            exact fun e5 => hc e5.symm
      · rcases h4 with h4 | ⟨_, h5, _⟩
        · refine Or.inr ⟨by rw [e2, h4]; rfl, by rw [e3]; exact fun e5 => hc e5.symm, ?_⟩
          rcases h1 with h1 | h1
          · exact e1.trans h1
          · rw [← e1] at h1
            omega
        · exact absurd e1.symm h5

/-- C5, amended (demotion on preemption): if the outgoing process `c` enters the
cycle RUNNING with band `q ≤ QUEUE_AMOUNT`, then the first part of the cycle
leaves it READY with counter 0, and at the end of the cycle its band is
`min (q + 1) QUEUE_AMOUNT`, provided `c` cannot reach the aging threshold within
the same cycle: `c` is not a scanned slot, or `AGING_FACTOR ≥ 2` and `c` is not
IDLE, or `AGING_FACTOR ≥ 3`.  Signal delivery is assumed to leave the band and
the counter of a process that is READY alone; it may wake up other processes. -/
theorem demotion_on_preempt (cfg : Config) (hsr : SigKeepsReady cfg) (k : Kernel)
    (hr : (k.proctab k.curr_proc).state = ProcState.RUNNING)
    (hq : (k.proctab k.curr_proc).queue ≤ cfg.QUEUE_AMOUNT)
    (hage : ¬ inScan cfg k.curr_proc ∨
      (2 ≤ cfg.AGING_FACTOR ∧ k.curr_proc ≠ cfg.IDLE) ∨ 3 ≤ cfg.AGING_FACTOR) :
    ((reclassify cfg k).proctab k.curr_proc).state = ProcState.READY ∧
    ((reclassify cfg k).proctab k.curr_proc).counter = 0 ∧
    ((yield cfg k).proctab k.curr_proc).queue =
      min ((k.proctab k.curr_proc).queue + 1) cfg.QUEUE_AMOUNT := by
  have hrec := (reclassify_curr cfg k).1 hr
  have hband : ((reclassify cfg k).proctab k.curr_proc).queue =
      min ((k.proctab k.curr_proc).queue + 1) cfg.QUEUE_AMOUNT := by
    rw [hrec]
    simp only
    split_ifs with h
    · rw [min_eq_left (by omega)]
    · rw [min_eq_right (by omega)]
      omega
  have hca := checkAlarms_ready cfg hsr (reclassify cfg k) k.curr_proc (by rw [hrec])
  refine ⟨by rw [hrec], by rw [hrec], ?_⟩
  unfold yield
  rw [dispatch_queue, chooseNext_keeps_band cfg _ _ ?_ ?_ hage]
  · unfold beforeChoice
    rw [hca.1, hband]
  · unfold beforeChoice
    rw [hca.2, hrec]
  · unfold beforeChoice
    rw [hca.1, hband]
    exact min_le_right _ _

/-! ## The theorems at concrete states -/

theorem wakeCfg_queue : SigKeepsQueue wakeCfg := by
  intro r s
  simp only [wakeCfg]
  split_ifs <;> rfl

theorem wakeCfg_ready : SigKeepsReady wakeCfg := by
  intro r s h
  simp [wakeCfg, h]

theorem wakeCfg_wakes : SigWakesBySched wakeCfg := by
  intro r s h
  simp only [wakeCfg] at h ⊢
  split_ifs at h ⊢
  · exact Or.inl rfl
  · exact Or.inr ⟨h, rfl⟩

theorem bandsOk_tableOf (cfg : Config) (st : ProcState) (r1 r2 r3 : Process) (curr : Nat)
    (h4 : 4 ≤ cfg.QUEUE_AMOUNT)
    (h1 : 1 ≤ r1.queue ∧ r1.queue ≤ cfg.QUEUE_AMOUNT)
    (h2 : 1 ≤ r2.queue ∧ r2.queue ≤ cfg.QUEUE_AMOUNT)
    (h3 : 1 ≤ r3.queue ∧ r3.queue ≤ cfg.QUEUE_AMOUNT) :
    BandsOk cfg (kernelOf (tableOf st r1 r2 r3) curr) := by
  intro i
  simp only [kernelOf, tableOf]
  split_ifs
  · exact h1
  · exact h2
  · exact h3
  · exact ⟨by simp [userProc], h4⟩

theorem sample_scan (i : Nat) (h : inScan sampleCfg i) : i = 1 ∨ i = 2 ∨ i = 3 := by
  have h1 : 1 ≤ i := h.1
  have h2 : i ≤ 3 := h.2
  omega

/-- Instance of C1: two cycles, a stop, a resume and a schedule from a state
with three READY processes. -/
theorem band_bounds_witness :
    SigKeepsBands sampleCfg ∧ BandsOk sampleCfg tieKernel ∧
    BandsOk sampleCfg (runCalls sampleCfg tieKernel
      [Call.yield, Call.stop, Call.resume 1, Call.sched 2, Call.yield]) :=
  ⟨fun _ _ h => h,
    bandsOk_tableOf sampleCfg _ _ _ _ 0 (by decide) (by decide) (by decide) (by decide),
    band_bounds sampleCfg (fun _ _ h => h) tieKernel
      (bandsOk_tableOf sampleCfg _ _ _ _ 0 (by decide) (by decide) (by decide) (by decide))
      [Call.yield, Call.stop, Call.resume 1, Call.sched 2, Call.yield]⟩

/-- Instance of C2: the current process has blocked and nothing is READY. -/
theorem idle_fallback_witness :
    chosen sampleCfg blockedKernel = 0 ∧
    ((yield sampleCfg blockedKernel).proctab 0).state = ProcState.RUNNING ∧
    (yield sampleCfg blockedKernel).curr_proc = 0 ∧
    (yield sampleCfg blockedKernel).switchTrace = [0] :=
  have h := idle_fallback sampleCfg blockedKernel (by
    intro i hi _
    rcases sample_scan i hi with rfl | rfl | rfl <;> decide)
  ⟨h.1, h.2.1, h.2.2.1, h.2.2.2.1⟩

/-- Instance of C3: processes 1 and 2 tie; process 2 is not dispatched. -/
theorem tie_break_witness :
    chosen sampleCfg tieKernel ≠ 2 ∧ (yield sampleCfg tieKernel).curr_proc ≠ 2 :=
  have h := tie_break_later_loses sampleCfg tieKernel 1 2 (by decide) (by decide) (by decide)
    (by decide) (by decide) (by decide) (by decide) (by decide)
  ⟨h.1, h.2.1⟩

/-- C5 as stated fails: with `AGING_FACTOR = 1`, a process preempted in band 3
is demoted to band 4, loses the comparison of the selection loop, reaches the
aging threshold of band 4 with counter 1 and ends the cycle in band 3 again. -/
theorem demotion_cex :
    (preemptKernel.proctab preemptKernel.curr_proc).state = ProcState.RUNNING ∧
    (preemptKernel.proctab preemptKernel.curr_proc).queue = 3 ∧
    ((yield agingOneCfg preemptKernel).proctab preemptKernel.curr_proc).queue = 3 ∧
    ¬ (((yield agingOneCfg preemptKernel).proctab preemptKernel.curr_proc).queue =
      min ((preemptKernel.proctab preemptKernel.curr_proc).queue + 1)
        agingOneCfg.QUEUE_AMOUNT) := by
  decide

/-- Instance of C5, amended: process 2 is preempted in band 3 while the alarm of
the sleeping process 1 is due; the alarm signal wakes process 1 up, which is
dispatched, and process 2 ends the cycle READY in band 4. -/
theorem demotion_witness :
    (wakeKernel.proctab 1).state = ProcState.OTHER 4 ∧
    ((beforeChoice wakeCfg wakeKernel).proctab 1).state = ProcState.READY ∧
    (yield wakeCfg wakeKernel).curr_proc = 1 ∧
    ((reclassify wakeCfg wakeKernel).proctab 2).state = ProcState.READY ∧
    ((reclassify wakeCfg wakeKernel).proctab 2).counter = 0 ∧
    ((yield wakeCfg wakeKernel).proctab 2).queue = min (3 + 1) 4 :=
  ⟨by decide, by decide, by decide,
    demotion_on_preempt wakeCfg wakeCfg_ready wakeKernel (by decide)
      (by decide) (Or.inr (Or.inl ⟨by decide, by decide⟩))⟩

/-- C6 as stated fails: a valid process whose alarm equals `ticks` is not
signalled and keeps its alarm. -/
theorem alarm_expiry_cex :
    inScan sampleCfg 1 ∧
    sampleCfg.IS_VALID ((reclassify sampleCfg alarmKernel).proctab 1) = true ∧
    (alarmKernel.proctab 1).alarm = alarmKernel.ticks ∧
    alarmsSent (yield sampleCfg alarmKernel) 1 = 0 ∧
    ((yield sampleCfg alarmKernel).proctab 1).alarm = 100 ∧
    ¬ ((alarmsSent (yield sampleCfg alarmKernel) 1 = alarmsSent alarmKernel 1 + 1 ∧
        ((yield sampleCfg alarmKernel).proctab 1).alarm = 0) ↔
      ((alarmKernel.proctab 1).alarm ≠ 0 ∧
        alarmKernel.ticks ≥ (alarmKernel.proctab 1).alarm)) := by
  decide

/-- Instance of C6, amended: the alarm of process 2 (50) is below `ticks` (100);
it is signalled once and disarmed. -/
theorem alarm_expiry_witness :
    alarmsSent (yield sampleCfg alarmKernel) 2 = alarmsSent alarmKernel 2 + 1 ∧
    ((yield sampleCfg alarmKernel).proctab 2).alarm = 0 :=
  (alarm_expiry sampleCfg (fun _ _ h => h) alarmKernel 2 (by decide) (by decide)).1.mpr
    (by decide)

/-- Instance of C7: three cycles, the clock advancing 60 ticks before each. -/
theorem alarm_once_witness :
    alarmsSent (runCycles sampleCfg alarmKernel [clockStep, clockStep, clockStep]) 1 ≤
      alarmsSent alarmKernel 1 + 1 :=
  (alarm_at_most_once sampleCfg (fun _ _ h => h) 1 [clockStep, clockStep, clockStep]
    (by
      intro e he
      have : e = clockStep := by simpa using he
      subst this
      exact fun k => ⟨rfl, fun h => h⟩)
    alarmKernel).1

/-! ## Exactly one RUNNING process -/

theorem reclassify_other (cfg : Config) (k : Kernel) (i : Nat) (h : i ≠ k.curr_proc) :
    (reclassify cfg k).proctab i = k.proctab i := by
  unfold reclassify
  simp only [sched]
  split_ifs <;> simp [h]

theorem reclassify_state (cfg : Config) (k : Kernel) (i : Nat) :
    ((reclassify cfg k).proctab i).state =
      if i = k.curr_proc ∧ (k.proctab i).state = ProcState.RUNNING then ProcState.READY
      else (k.proctab i).state := by
  by_cases hi : i = k.curr_proc
  · subst hi
    unfold reclassify
    simp only [sched]
    split_ifs <;> simp_all
  · rw [reclassify_other cfg k i hi, if_neg (fun h => hi h.1)]

theorem checkAlarms_notRunning (cfg : Config) (hs : SigNeverRuns cfg) (k : Kernel) (i : Nat)
    (h : (k.proctab i).state ≠ ProcState.RUNNING) :
    ((checkAlarms cfg k).proctab i).state ≠ ProcState.RUNNING := by
  rw [(checkAlarms_spec cfg k).2.1 i]
  split_ifs
  · exact fun e => h (hs { k.proctab i with alarm := 0 } _ e)
  · exact h

theorem sndsig_proctab (cfg : Config) (k : Kernel) (p : Nat) (s : Signal) (i : Nat) :
    (sndsig cfg k p s).proctab i =
      if i = p then cfg.sigEffect (k.proctab i) s else k.proctab i := rfl

theorem dispatch_state (cfg : Config) (st : Kernel × Nat) (i : Nat) :
    ((dispatch cfg st).proctab i).state =
      if i = st.2 then ProcState.RUNNING else (st.1.proctab i).state := by
  simp only [dispatch, switch_to, modify_proctab]
  split_ifs <;> rfl

/-- After a cycle started with no RUNNING process other than the outgoing one,
the RUNNING processes are exactly the dispatched one. -/
theorem yield_single_running (cfg : Config) (hs : SigNeverRuns cfg) (k : Kernel)
    (h : ∀ i, i ≠ k.curr_proc → (k.proctab i).state ≠ ProcState.RUNNING) (i : Nat) :
    ((yield cfg k).proctab i).state = ProcState.RUNNING ↔ i = (yield cfg k).curr_proc := by
  have hcur : (yield cfg k).curr_proc = (chooseNext cfg (beforeChoice cfg k)).2 :=
    (yield_post_facts cfg k).2.2.2.2.2.1
  rw [hcur]
  unfold yield
  rw [dispatch_state]
  split_ifs with hi
  · simp [hi]
  · simp only [hi, iff_false]
    rw [(chooseNext_fields cfg _ i).1]
    unfold beforeChoice
    apply checkAlarms_notRunning cfg hs
    rw [reclassify_state]
    split_ifs with hc
    · simp
    · intro hrun
      by_cases hic : i = k.curr_proc
      · exact hc ⟨hic, hrun⟩
      · exact h i hic hrun

/-- C11 (single RUNNING process): if no process other than the current one is
RUNNING and signal delivery never makes a process RUNNING, then after `yield`,
and likewise after `stop`, exactly one process is RUNNING, namely the process
that was dispatched (the new current process, selected by the cycle). -/
theorem single_running (cfg : Config) (hs : SigNeverRuns cfg) (k : Kernel)
    (h : ∀ i, i ≠ k.curr_proc → (k.proctab i).state ≠ ProcState.RUNNING) :
    (∀ i, ((yield cfg k).proctab i).state = ProcState.RUNNING ↔ i = (yield cfg k).curr_proc) ∧
    (yield cfg k).curr_proc = chosen cfg k ∧
    (yield cfg k).switchTrace = chosen cfg k :: k.switchTrace ∧
    (∀ i, ((stop cfg k).proctab i).state = ProcState.RUNNING ↔ i = (stop cfg k).curr_proc) := by
  refine ⟨yield_single_running cfg hs k h, (yield_post_facts cfg k).2.2.2.2.2.1,
    (yield_post_facts cfg k).2.2.2.2.1, ?_⟩
  unfold stop
  apply yield_single_running cfg hs
  intro i _
  have h1 : ∀ j, ((k.modify k.curr_proc
      (fun r => { r with state := ProcState.STOPPED })).proctab j).state ≠
      ProcState.RUNNING := by
    intro j
    rw [modify_proctab]
    split_ifs with hj
    · simp
    · exact h j hj
  rw [sndsig_proctab]
  split_ifs
  · exact fun e => h1 i (hs _ _ e)
  · exact h1 i

/-! ## The aging step -/

theorem ageStep_due (cfg : Config) (st : Kernel × Nat) (p : Nat)
    (h : agingDue cfg (st.1.proctab p)) :
    ageStep cfg st p =
      ((st.1.modify p (fun r => { r with counter := 0 })).modify p
        (fun r => { r with queue := r.queue - 1 }), st.2) := by
  unfold ageStep
  exact if_pos h

theorem ageStep_notDue (cfg : Config) (st : Kernel × Nat) (p : Nat)
    (h : ¬ agingDue cfg (st.1.proctab p)) : ageStep cfg st p = st := by
  unfold ageStep
  exact if_neg h

theorem ageStep_other (cfg : Config) (st : Kernel × Nat) (p i : Nat) (h : i ≠ p) :
    (ageStep cfg st p).1.proctab i = st.1.proctab i := by
  by_cases hd : agingDue cfg (st.1.proctab p)
  · rw [ageStep_due cfg st p hd]
    simp [h]
  · rw [ageStep_notDue cfg st p hd]

/-- C18 (aging step): a slot that is not READY is left alone by the loop body,
and for a READY slot `p` the body is the comparison followed by the aging step.
The aging step, applied to any state `st` left by the comparison: if the counter
of `p` has reached `((QUEUE_AMOUNT + 1) - queue) * AGING_FACTOR` and its band is
not 1, the band of `p` is decreased by one and its counter becomes 0; otherwise
nothing changes, in particular nothing changes for a process in band 1; records
of other slots and the incumbent `next` are never changed by the aging step. -/
theorem aging_step (cfg : Config) (st : Kernel × Nat) (p : Nat) :
    ((st.1.proctab p).state = ProcState.READY →
      chooseStep cfg st p = ageStep cfg (compareStep st p) p) ∧
    ((st.1.proctab p).state ≠ ProcState.READY → chooseStep cfg st p = st) ∧
    (((st.1.proctab p).counter ≥
          ((cfg.QUEUE_AMOUNT + 1) - (st.1.proctab p).queue) * cfg.AGING_FACTOR ∧
        (st.1.proctab p).queue ≠ 1) →
      (ageStep cfg st p).1.proctab p =
        { st.1.proctab p with counter := 0, queue := (st.1.proctab p).queue - 1 }) ∧
    (¬ ((st.1.proctab p).counter ≥
          ((cfg.QUEUE_AMOUNT + 1) - (st.1.proctab p).queue) * cfg.AGING_FACTOR ∧
        (st.1.proctab p).queue ≠ 1) →
      ageStep cfg st p = st) ∧
    ((st.1.proctab p).queue = 1 → ageStep cfg st p = st) ∧
    (∀ i, i ≠ p → (ageStep cfg st p).1.proctab i = st.1.proctab i) ∧
    (ageStep cfg st p).2 = st.2 := by
  refine ⟨fun h => ?_, fun h => ?_, fun h => ?_, fun h => ageStep_notDue cfg st p h,
    fun h => ageStep_notDue cfg st p (fun hd => hd.2 h), fun i hi => ageStep_other cfg st p i hi,
    ageStep_next cfg st p⟩
  · unfold chooseStep
    rw [if_neg (not_not.mpr h)]
  · unfold chooseStep
    rw [if_pos h]
  · rw [ageStep_due cfg st p h]
    simp

/-! ## Stopping the current process -/

theorem lexle_refl (r : Process) : lexle r r := by
  unfold lexle
  omega

theorem lexle_queue {r a : Process} (h : lexle r a) : r.queue ≤ a.queue := by
  unfold lexle at h
  omega

/-- The selected process is at least as good as IDLE was when the loop started. -/
theorem chooseNext_lexle_idle (cfg : Config) (k : Kernel) :
    lexle ((chooseNext cfg k).1.proctab (chooseNext cfg k).2) (k.proctab cfg.IDLE) := by
  unfold chooseNext
  exact foldl_keeps (fun st : Kernel × Nat => lexle (st.1.proctab st.2) (k.proctab cfg.IDLE))
    (chooseStep cfg) (fun a b ha => lexle_trans (chooseStep_mono cfg a b) ha) (procSlots cfg)
    (k, cfg.IDLE) (lexle_refl _)

/-- The selected process is at least as good as every scanned READY process was
when the loop started. -/
theorem chooseNext_lexle (cfg : Config) (k : Kernel) (p : Nat)
    (hp : inScan cfg p) (hpi : p ≠ cfg.IDLE) (hr : (k.proctab p).state = ProcState.READY) :
    lexle ((chooseNext cfg k).1.proctab (chooseNext cfg k).2) (k.proctab p) := by
  unfold inScan at hp
  have key := range_fold_rule (chooseStep cfg)
    (fun n st =>
      (st.2 = cfg.IDLE ∨ (cfg.FIRST_PROC ≤ st.2 ∧ st.2 < cfg.FIRST_PROC + n)) ∧
      (∀ i, ¬ (cfg.FIRST_PROC ≤ i ∧ i < cfg.FIRST_PROC + n) → i ≠ cfg.IDLE →
        st.1.proctab i = k.proctab i) ∧
      (p < cfg.FIRST_PROC + n → lexle (st.1.proctab st.2) (k.proctab p)))
    cfg.FIRST_PROC (cfg.LAST_PROC + 1 - cfg.FIRST_PROC) (k, cfg.IDLE) ?_ ?_
  · exact key.2.2 (by omega)
  · exact ⟨Or.inl rfl, fun _ _ _ => rfl, fun h => by omega⟩
  · intro n st _ hst
    obtain ⟨h1, h2, h3⟩ := hst
    have hnext := chooseStep_next cfg st (cfg.FIRST_PROC + n)
    have hfresh : ∀ i, ¬ (cfg.FIRST_PROC ≤ i ∧ i < cfg.FIRST_PROC + n) → i ≠ cfg.IDLE →
        i ≠ st.2 := by
      intro i hi hi2 he
      rcases h1 with h1 | h1
      · exact hi2 (he.trans h1)
      · exact hi (he ▸ h1)
    refine ⟨?_, ?_, ?_⟩
    · rcases hnext with e | ⟨e, _⟩
      · rw [e]
        rcases h1 with h1 | h1
        · exact Or.inl h1
        · exact Or.inr ⟨h1.1, by omega⟩
      · rw [e]
        exact Or.inr ⟨by omega, by omega⟩
    · intro i hi hi2
      have hi3 : ¬ (cfg.FIRST_PROC ≤ i ∧ i < cfg.FIRST_PROC + n) := by omega
      rw [chooseStep_other cfg st _ i (by omega) (hfresh i hi3 hi2)]
      exact h2 i hi3 hi2
    · intro hlt
      by_cases hp2 : p < cfg.FIRST_PROC + n
      · exact lexle_trans (chooseStep_mono cfg st _) (h3 hp2)
      · have hpe : p = cfg.FIRST_PROC + n := by omega
        have hrec : st.1.proctab p = k.proctab p := h2 p (by omega) hpi
        rw [← hpe, ← hrec]
        exact chooseStep_scanned cfg st p (by rw [hrec]; exact hr)

/-- C20 (best band wins): the band of the dispatched process at the end of the
cycle is not greater than the band that any scanned process (or IDLE) READY at
the start of candidate selection had at that moment. -/
theorem best_band_wins (cfg : Config) (k : Kernel) (p : Nat)
    (hp : inScan cfg p ∨ p = cfg.IDLE)
    (hr : ((beforeChoice cfg k).proctab p).state = ProcState.READY) :
    ((yield cfg k).proctab (chosen cfg k)).queue ≤ ((beforeChoice cfg k).proctab p).queue ∧
    (yield cfg k).curr_proc = chosen cfg k := by
  have hf := yield_post_facts cfg k
  refine ⟨?_, hf.2.2.2.2.2.1⟩
  rw [hf.2.2.2.1]
  unfold chosen
  by_cases hpi : p = cfg.IDLE
  · rw [hpi]
    exact lexle_queue (chooseNext_lexle_idle cfg _)
  · rcases hp with hp | hp
    · exact lexle_queue (chooseNext_lexle cfg _ p hp hpi hr)
    · exact absurd hp hpi

/-! ## When IDLE is dispatched -/

/-- The loop body changes the incumbent's record only by the `counter++` that
goes with its replacement. -/
theorem chooseStep_incumbent (cfg : Config) (st : Kernel × Nat) (p : Nat) (hne : p ≠ st.2) :
    ((chooseStep cfg st p).2 = st.2 ∧
      (chooseStep cfg st p).1.proctab st.2 = st.1.proctab st.2) ∨
    ((chooseStep cfg st p).2 = p ∧ (st.1.proctab p).state = ProcState.READY ∧
      (chooseStep cfg st p).1.proctab st.2 = bumped (st.1.proctab st.2)) := by
  have hne2 : st.2 ≠ p := fun e => hne e.symm
  unfold chooseStep
  split_ifs with hr
  · exact Or.inl ⟨rfl, rfl⟩
  · rw [ageStep_next, ageStep_other cfg _ p st.2 hne2]
    unfold compareStep
    simp only [incCounter]
    split_ifs
    · exact Or.inr ⟨rfl, not_not.mp hr, by simp [bumped]⟩
    · exact Or.inl ⟨rfl, by simp [hne2]⟩
    · exact Or.inr ⟨rfl, not_not.mp hr, by simp [bumped]⟩
    · exact Or.inl ⟨rfl, by simp [hne2]⟩

/-- If IDLE is not itself a scanned READY slot and is selected, the loop has
not touched its record. -/
theorem chooseNext_idle_kept (cfg : Config) (k : Kernel)
    (hI : ¬ (inScan cfg cfg.IDLE ∧ (k.proctab cfg.IDLE).state = ProcState.READY))
    (hc : (chooseNext cfg k).2 = cfg.IDLE) :
    (chooseNext cfg k).1.proctab cfg.IDLE = k.proctab cfg.IDLE := by
  have key := range_fold_rule (chooseStep cfg)
    (fun _ st => (∀ i, (st.1.proctab i).state = (k.proctab i).state) ∧
      (st.2 = cfg.IDLE → st.1.proctab cfg.IDLE = k.proctab cfg.IDLE))
    cfg.FIRST_PROC (cfg.LAST_PROC + 1 - cfg.FIRST_PROC) (k, cfg.IDLE) ⟨fun _ => rfl, fun _ => rfl⟩ ?_
  · exact key.2 hc
  · intro n st hn hst
    refine ⟨fun i => ((chooseStep_fields cfg st _ i).1).trans (hst.1 i), fun he => ?_⟩
    have hscan : inScan cfg (cfg.FIRST_PROC + n) := ⟨by omega, by omega⟩
    by_cases hp : cfg.FIRST_PROC + n = st.2
    · have hold : st.2 = cfg.IDLE := by
        rcases chooseStep_next cfg st (cfg.FIRST_PROC + n) with e | ⟨e, _⟩
        · exact e.symm.trans he
        · exact hp.symm.trans (e.symm.trans he)
      have hnr : (st.1.proctab (cfg.FIRST_PROC + n)).state ≠ ProcState.READY := by
        rw [hst.1, hp, hold]
        intro hr
        exact hI ⟨by rw [← hold, ← hp]; exact hscan, hr⟩
      have : chooseStep cfg st (cfg.FIRST_PROC + n) = st := by
        unfold chooseStep
        rw [if_pos hnr]
      rw [this]
      exact hst.2 hold
    · rcases chooseStep_incumbent cfg st _ hp with ⟨e1, e2⟩ | ⟨e1, e2, _⟩
      · have hold : st.2 = cfg.IDLE := e1.symm.trans he
        rw [← hold, e2, hold]
        exact hst.2 hold
      · exfalso
        have hidle : cfg.FIRST_PROC + n = cfg.IDLE := e1.symm.trans he
        rw [hst.1, hidle] at e2
        exact hI ⟨by rw [← hidle]; exact hscan, e2⟩

/-- C14, amended (when IDLE is dispatched): if a cycle dispatches IDLE, then
every scanned process other than IDLE that was READY when candidate selection
began was not better placed than IDLE: IDLE, as the scan left it, is in a
strictly lower-numbered band, or in the same band with a weight that is not
larger; when IDLE is not itself a scanned READY slot this holds for IDLE as it
was when selection began. -/
theorem idle_dispatched_unbeaten (cfg : Config) (k : Kernel) (p : Nat)
    (hc : chosen cfg k = cfg.IDLE)
    (hp : inScan cfg p) (hpi : p ≠ cfg.IDLE)
    (hr : ((beforeChoice cfg k).proctab p).state = ProcState.READY) :
    (((chooseNext cfg (beforeChoice cfg k)).1.proctab cfg.IDLE).queue <
        ((beforeChoice cfg k).proctab p).queue ∨
      (((chooseNext cfg (beforeChoice cfg k)).1.proctab cfg.IDLE).queue =
          ((beforeChoice cfg k).proctab p).queue ∧
        weight ((chooseNext cfg (beforeChoice cfg k)).1.proctab cfg.IDLE) ≤
          weight ((beforeChoice cfg k).proctab p))) ∧
    (¬ (inScan cfg cfg.IDLE ∧
        ((beforeChoice cfg k).proctab cfg.IDLE).state = ProcState.READY) →
      (((beforeChoice cfg k).proctab cfg.IDLE).queue <
          ((beforeChoice cfg k).proctab p).queue ∨
        (((beforeChoice cfg k).proctab cfg.IDLE).queue =
            ((beforeChoice cfg k).proctab p).queue ∧
          weight ((beforeChoice cfg k).proctab cfg.IDLE) ≤
            weight ((beforeChoice cfg k).proctab p)))) := by
  have h := chooseNext_lexle cfg (beforeChoice cfg k) p hp hpi hr
  unfold chosen at hc
  rw [hc] at h
  refine ⟨h, fun hI => ?_⟩
  rw [chooseNext_idle_kept cfg _ hI hc] at h
  exact h

/-! ## Slots the cycle leaves alone -/

/-- A slot that is neither READY nor IDLE is not touched by the selection loop
and is not selected. -/
theorem chooseNext_untouched (cfg : Config) (k : Kernel) (i : Nat)
    (hr : (k.proctab i).state ≠ ProcState.READY) (hi : i ≠ cfg.IDLE) :
    (chooseNext cfg k).1.proctab i = k.proctab i ∧ (chooseNext cfg k).2 ≠ i := by
  unfold chooseNext
  refine foldl_keeps (fun st : Kernel × Nat => st.1.proctab i = k.proctab i ∧ st.2 ≠ i)
    (chooseStep cfg) ?_ (procSlots cfg) (k, cfg.IDLE) ⟨rfl, fun e => hi e.symm⟩
  intro st p hst
  by_cases hp : p = i
  · have : chooseStep cfg st p = st := by
      unfold chooseStep
      rw [if_pos (by rw [hp, hst.1]; exact hr)]
    rw [this]
    exact hst
  · refine ⟨?_, ?_⟩
    · rw [chooseStep_other cfg st p i (fun e => hp e.symm) (fun e => hst.2 e.symm)]
      exact hst.1
    · rcases chooseStep_next cfg st p with e | ⟨e, _⟩
      · rw [e]
        exact hst.2
      · rw [e]
        exact hp

theorem dispatch_other (cfg : Config) (st : Kernel × Nat) (i : Nat) (h : i ≠ st.2) :
    (dispatch cfg st).proctab i = st.1.proctab i := by
  simp [dispatch, switch_to, h]

/-- C15, amended (invalid slots): a slot for which `IS_VALID` is false when the
alarm loop runs is not signalled and keeps its alarm.  The selection loop does
not test `IS_VALID`; it skips the slots that are not READY: such a slot, if it is
neither IDLE nor the outgoing process, is not selected and its record is left as
it was. -/
theorem invalid_slot_skipped (cfg : Config) (k : Kernel) (i : Nat)
    (hv : cfg.IS_VALID ((reclassify cfg k).proctab i) = false) :
    alarmsSent (yield cfg k) i = alarmsSent k i ∧
    ((yield cfg k).proctab i).alarm = (k.proctab i).alarm ∧
    (i ≠ k.curr_proc → (k.proctab i).state ≠ ProcState.READY → i ≠ cfg.IDLE →
      chosen cfg k ≠ i ∧ (yield cfg k).proctab i = k.proctab i) := by
  have hnf : ¬ (inScan cfg i ∧ fires cfg k.ticks ((reclassify cfg k).proctab i)) := by
    intro h
    have := h.2.1
    rw [hv] at this
    exact Bool.noConfusion this
  obtain ⟨h1, h2⟩ := yield_alarm_facts cfg k i
  rw [if_neg hnf] at h1 h2
  refine ⟨h2, h1, fun hc hr hi => ?_⟩
  have ht : (reclassify cfg k).ticks = k.ticks := by
    have := reclassify_globals cfg k
    simp only [Kernel.globals, Prod.mk.injEq] at this
    exact this.2.2.1
  have hb : (beforeChoice cfg k).proctab i = k.proctab i := by
    unfold beforeChoice
    rw [(checkAlarms_spec cfg _).2.1 i, ht, if_neg hnf, reclassify_other cfg k i hc]
  have hu := chooseNext_untouched cfg (beforeChoice cfg k) i (by rw [hb]; exact hr) hi
  refine ⟨hu.2, ?_⟩
  unfold yield
  rw [dispatch_other cfg _ i (fun e => hu.2 e.symm), hu.1, hb]

/-! ## One slot through the selection loop -/

theorem compareStep_eq (st : Kernel × Nat) (p : Nat) :
    compareStep st p =
      if beats (st.1.proctab p) (st.1.proctab st.2) then (incCounter st.1 st.2, p)
      else (incCounter st.1 p, st.2) := by
  unfold compareStep beats weight
  simp only
  split_ifs <;> first | rfl | (exfalso; omega)

theorem ageStep_self (cfg : Config) (st : Kernel × Nat) (p : Nat) :
    (ageStep cfg st p).1.proctab p = agedRec cfg (st.1.proctab p) := by
  unfold agedRec
  by_cases hd : agingDue cfg (st.1.proctab p)
  · rw [ageStep_due cfg st p hd, if_pos hd]
    simp
  · rw [ageStep_notDue cfg st p hd, if_neg hd]

/-- The loop body on a READY slot `p` that is not the incumbent: either `p` wins
and is aged as it stands, or it loses, its counter is incremented and it is aged
after that. -/
theorem chooseStep_own (cfg : Config) (st : Kernel × Nat) (p : Nat)
    (hr : (st.1.proctab p).state = ProcState.READY) (hne : p ≠ st.2) :
    (beats (st.1.proctab p) (st.1.proctab st.2) ∧ (chooseStep cfg st p).2 = p ∧
      (chooseStep cfg st p).1.proctab p = agedRec cfg (st.1.proctab p)) ∨
    (¬ beats (st.1.proctab p) (st.1.proctab st.2) ∧ (chooseStep cfg st p).2 = st.2 ∧
      (chooseStep cfg st p).1.proctab p = agedRec cfg (bumped (st.1.proctab p))) := by
  unfold chooseStep
  rw [if_neg (not_not.mpr hr), ageStep_next, ageStep_self, compareStep_eq]
  by_cases hb : beats (st.1.proctab p) (st.1.proctab st.2)
  · rw [if_pos hb]
    refine Or.inl ⟨hb, rfl, ?_⟩
    simp [incCounter, hne]
  · rw [if_neg hb]
    refine Or.inr ⟨hb, rfl, ?_⟩
    simp [incCounter, bumped]

/-- What the selection loop does to a scanned READY slot `p` other than IDLE: if
`p` is selected it has only been aged; otherwise its counter has been
incremented exactly once, before or after the aging test. -/
theorem chooseNext_passed (cfg : Config) (k : Kernel) (p : Nat)
    (hp : inScan cfg p) (hpi : p ≠ cfg.IDLE) (hr : (k.proctab p).state = ProcState.READY) :
    ((chooseNext cfg k).2 = p ∧
      (chooseNext cfg k).1.proctab p = agedRec cfg (k.proctab p)) ∨
    ((chooseNext cfg k).2 ≠ p ∧
      ((chooseNext cfg k).1.proctab p = agedRec cfg (bumped (k.proctab p)) ∨
        (chooseNext cfg k).1.proctab p = bumped (agedRec cfg (k.proctab p)))) := by
  unfold inScan at hp
  have key := range_fold_rule (chooseStep cfg)
    (fun n st =>
      (st.2 = cfg.IDLE ∨ (cfg.FIRST_PROC ≤ st.2 ∧ st.2 < cfg.FIRST_PROC + n)) ∧
      (¬ p < cfg.FIRST_PROC + n → st.1.proctab p = k.proctab p) ∧
      (p < cfg.FIRST_PROC + n →
        ((st.2 = p ∧ st.1.proctab p = agedRec cfg (k.proctab p)) ∨
          (st.2 ≠ p ∧ (st.1.proctab p = agedRec cfg (bumped (k.proctab p)) ∨
            st.1.proctab p = bumped (agedRec cfg (k.proctab p)))))))
    cfg.FIRST_PROC (cfg.LAST_PROC + 1 - cfg.FIRST_PROC) (k, cfg.IDLE) ?_ ?_
  · exact key.2.2 (by omega)
  · exact ⟨Or.inl rfl, fun _ => rfl, fun h => by omega⟩
  · intro n st _ hst
    obtain ⟨h1, h2, h3⟩ := hst
    have hnext := chooseStep_next cfg st (cfg.FIRST_PROC + n)
    have hfresh : ¬ p < cfg.FIRST_PROC + n → p ≠ st.2 := by
      intro hlt he
      rcases h1 with h1 | h1
      · exact hpi (he.trans h1)
      · rw [← he] at h1
        omega
    refine ⟨?_, ?_, ?_⟩
    · rcases hnext with e | ⟨e, _⟩
      · rw [e]
        rcases h1 with h1 | h1
        · exact Or.inl h1
        · exact Or.inr ⟨h1.1, by omega⟩
      · rw [e]
        exact Or.inr ⟨by omega, by omega⟩
    · intro hlt
      have hlt2 : ¬ p < cfg.FIRST_PROC + n := by omega
      rw [chooseStep_other cfg st _ p (by omega) (hfresh hlt2)]
      exact h2 hlt2
    · intro hlt
      by_cases hpe : p = cfg.FIRST_PROC + n
      · have hlt2 : ¬ p < cfg.FIRST_PROC + n := by omega
        have hrec := h2 hlt2
        rw [← hpe]
        rcases chooseStep_own cfg st p (by rw [hrec]; exact hr) (hfresh hlt2) with
          ⟨_, e1, e2⟩ | ⟨_, e1, e2⟩
        · exact Or.inl ⟨e1, by rw [e2, hrec]⟩
        · refine Or.inr ⟨by rw [e1]; exact fun e => hfresh hlt2 e.symm, Or.inl ?_⟩
          rw [e2, hrec]
      · have hlt2 : p < cfg.FIRST_PROC + n := by omega
        rcases h3 hlt2 with ⟨e1, e2⟩ | ⟨e1, e2⟩
        · rcases chooseStep_incumbent cfg st (cfg.FIRST_PROC + n)
            (by rw [e1]; exact fun e => hpe e.symm) with ⟨f1, f2⟩ | ⟨f1, _, f2⟩
          · rw [e1] at f1 f2
            exact Or.inl ⟨f1, by rw [f2]; exact e2⟩
          · rw [e1] at f2
            refine Or.inr ⟨by rw [f1]; exact fun e => hpe e.symm, Or.inr ?_⟩
            rw [f2, e2]
        · refine Or.inr ⟨?_, ?_⟩
          · rcases hnext with e | ⟨e, _⟩
            · rw [e]
              exact e1
            · rw [e]
              exact fun e => hpe e.symm
          · rw [chooseStep_other cfg st _ p hpe (fun e => e1 e.symm)]
            exact e2

theorem agedRec_noAging (cfg : Config) (r : Process) (h : noAging cfg r) :
    agedRec cfg r = r ∧ agedRec cfg (bumped r) = bumped r := by
  unfold agedRec agingDue
  unfold noAging at h
  constructor
  · rw [if_neg]
    intro hd
    rcases h with h | h
    · exact hd.2 h
    · linarith [hd.1]
  · rw [if_neg]
    intro hd
    simp only [bumped] at hd
    rcases h with h | h
    · exact hd.2 h
    · linarith [hd.1]

/-- A scanned READY slot other than IDLE that is below the aging threshold and
is not selected leaves the selection loop with its counter incremented once. -/
theorem chooseNext_credit (cfg : Config) (k : Kernel) (p : Nat)
    (hp : inScan cfg p) (hpi : p ≠ cfg.IDLE) (hr : (k.proctab p).state = ProcState.READY)
    (hna : noAging cfg (k.proctab p)) (hc : (chooseNext cfg k).2 ≠ p) :
    (chooseNext cfg k).1.proctab p = bumped (k.proctab p) := by
  have ha := agedRec_noAging cfg _ hna
  rcases chooseNext_passed cfg k p hp hpi hr with ⟨e, _⟩ | ⟨_, e | e⟩
  · exact absurd e hc
  · rw [e, ha.2]
  · rw [e, ha.1]

/-- C17 (passed-over credit): a scanned process `p` other than IDLE that is
READY when candidate selection begins, is not dispatched, and is in band 1 or
has `counter + 1` below the aging threshold of its band, ends the cycle with its
counter exactly one above its value at the start of selection and with state,
band, priority, nice (and alarm, father) unchanged. -/
theorem passed_over_credit (cfg : Config) (k : Kernel) (p : Nat)
    (hp : inScan cfg p) (hpi : p ≠ cfg.IDLE)
    (hr : ((beforeChoice cfg k).proctab p).state = ProcState.READY)
    (hc : chosen cfg k ≠ p)
    (hna : ((beforeChoice cfg k).proctab p).queue = 1 ∨
      ((beforeChoice cfg k).proctab p).counter + 1 <
        ((cfg.QUEUE_AMOUNT + 1) - ((beforeChoice cfg k).proctab p).queue) * cfg.AGING_FACTOR) :
    (yield cfg k).proctab p =
      { (beforeChoice cfg k).proctab p with
        counter := ((beforeChoice cfg k).proctab p).counter + 1 } := by
  unfold yield
  rw [dispatch_other cfg _ p (fun e => hc e.symm),
    chooseNext_credit cfg _ p hp hpi hr hna hc]
  rfl

/-! ## The winner of the selection loop -/

theorem beats_lexle {a b : Process} (h : beats a b) : lexle a b := by
  unfold beats at h
  unfold lexle
  omega

theorem lexle_of_not_beats {a b : Process} (h : ¬ beats a b) : lexle b a := by
  unfold beats at h
  unfold lexle
  omega

theorem beats_of_beats_lexle {a b c : Process} (h1 : beats a b) (h2 : lexle b c) :
    beats a c := by
  unfold beats at *
  unfold lexle at h2
  omega

theorem beats_trans {a b c : Process} (h1 : beats a b) (h2 : beats b c) : beats a c :=
  beats_of_beats_lexle h1 (beats_lexle h2)

/-- The selection loop when no scanned READY slot can reach the aging threshold
and IDLE is not itself a scanned READY slot: the selected process is IDLE or a
scanned READY slot that beats IDLE, its record is as it was when the loop
started, it is at least as good as every scanned READY slot, and strictly better
than those scanned before it.  All comparisons are between the records as they
were when the loop started. -/
theorem chooseNext_best (cfg : Config) (k : Kernel)
    (hI : ¬ (inScan cfg cfg.IDLE ∧ (k.proctab cfg.IDLE).state = ProcState.READY))
    (hNA : ∀ p, inScan cfg p → (k.proctab p).state = ProcState.READY →
      noAging cfg (k.proctab p)) :
    ((chooseNext cfg k).2 = cfg.IDLE ∨
      (inScan cfg (chooseNext cfg k).2 ∧
        (k.proctab (chooseNext cfg k).2).state = ProcState.READY ∧
        beats (k.proctab (chooseNext cfg k).2) (k.proctab cfg.IDLE))) ∧
    (chooseNext cfg k).1.proctab (chooseNext cfg k).2 = k.proctab (chooseNext cfg k).2 ∧
    (∀ p, inScan cfg p → (k.proctab p).state = ProcState.READY → p ≠ (chooseNext cfg k).2 →
      lexle (k.proctab (chooseNext cfg k).2) (k.proctab p) ∧
      ((chooseNext cfg k).2 ≠ cfg.IDLE → p < (chooseNext cfg k).2 →
        beats (k.proctab (chooseNext cfg k).2) (k.proctab p))) := by
  have key := range_fold_rule (chooseStep cfg)
    (fun n st =>
      (∀ i, (st.1.proctab i).state = (k.proctab i).state) ∧
      (st.2 = cfg.IDLE ∨ ((cfg.FIRST_PROC ≤ st.2 ∧ st.2 < cfg.FIRST_PROC + n) ∧
        (k.proctab st.2).state = ProcState.READY ∧
        beats (k.proctab st.2) (k.proctab cfg.IDLE))) ∧
      (∀ i, ¬ (cfg.FIRST_PROC ≤ i ∧ i < cfg.FIRST_PROC + n) → i ≠ cfg.IDLE →
        st.1.proctab i = k.proctab i) ∧
      st.1.proctab st.2 = k.proctab st.2 ∧
      (∀ p, (cfg.FIRST_PROC ≤ p ∧ p < cfg.FIRST_PROC + n) →
        (k.proctab p).state = ProcState.READY → p ≠ st.2 →
        lexle (k.proctab st.2) (k.proctab p) ∧
        (st.2 ≠ cfg.IDLE → p < st.2 → beats (k.proctab st.2) (k.proctab p))))
    cfg.FIRST_PROC (cfg.LAST_PROC + 1 - cfg.FIRST_PROC) (k, cfg.IDLE) ?_ ?_
  · obtain ⟨_, k1, _, k3, k4⟩ := key
    refine ⟨?_, k3, fun p hp hr hne => k4 p ?_ hr hne⟩
    · rcases k1 with h | h
      · exact Or.inl h
      · refine Or.inr ⟨?_, h.2⟩
        have := h.1
        unfold chooseNext procSlots inScan
        omega
    · unfold inScan at hp
      omega
  · exact ⟨fun _ => rfl, Or.inl rfl, fun _ _ _ => rfl, rfl, fun p hp => by omega⟩
  · intro n st hn hst
    obtain ⟨h0, h1, h2, h3, h4⟩ := hst
    have hscan : inScan cfg (cfg.FIRST_PROC + n) := ⟨by omega, by omega⟩
    have hstate : ∀ i, ((chooseStep cfg st (cfg.FIRST_PROC + n)).1.proctab i).state =
        (k.proctab i).state := fun i => ((chooseStep_fields cfg st _ i).1).trans (h0 i)
    have hfresh : ∀ i, ¬ (cfg.FIRST_PROC ≤ i ∧ i < cfg.FIRST_PROC + n) → i ≠ cfg.IDLE →
        i ≠ st.2 := by
      intro i hi hi2 he
      rcases h1 with h1 | h1
      · exact hi2 (he.trans h1)
      · exact hi (he ▸ h1.1)
    by_cases hq : (k.proctab (cfg.FIRST_PROC + n)).state = ProcState.READY
    · have hqi : cfg.FIRST_PROC + n ≠ cfg.IDLE := fun e => hI ⟨e ▸ hscan, e ▸ hq⟩
      have hqrec : st.1.proctab (cfg.FIRST_PROC + n) = k.proctab (cfg.FIRST_PROC + n) :=
        h2 _ (by omega) hqi
      have hqne : cfg.FIRST_PROC + n ≠ st.2 := hfresh _ (by omega) hqi
      have hna := agedRec_noAging cfg _ (hNA _ hscan hq)
      have hother : ∀ i, ¬ (cfg.FIRST_PROC ≤ i ∧ i < cfg.FIRST_PROC + (n + 1)) →
          i ≠ cfg.IDLE →
          (chooseStep cfg st (cfg.FIRST_PROC + n)).1.proctab i = k.proctab i := by
        intro i hi hi2
        have hi3 : ¬ (cfg.FIRST_PROC ≤ i ∧ i < cfg.FIRST_PROC + n) := by omega
        rw [chooseStep_other cfg st _ i (by omega) (hfresh i hi3 hi2)]
        exact h2 i hi3 hi2
      rcases chooseStep_own cfg st _ (by rw [h0]; exact hq) hqne with
        ⟨hb, e1, e2⟩ | ⟨hb, e1, e2⟩
      · rw [hqrec, h3] at hb
        rw [hqrec, hna.1] at e2
        refine ⟨hstate, ?_, hother, by rw [e1]; exact e2, ?_⟩
        · rw [e1]
          refine Or.inr ⟨⟨by omega, by omega⟩, hq, ?_⟩
          rcases h1 with h1 | h1
          · rw [h1] at hb
            exact hb
          · exact beats_trans hb h1.2.2
        · intro p hp hr hne
          rw [e1] at hne ⊢
          have hp2 : cfg.FIRST_PROC ≤ p ∧ p < cfg.FIRST_PROC + n := by omega
          have hbp : beats (k.proctab (cfg.FIRST_PROC + n)) (k.proctab p) := by
            by_cases hps : p = st.2
            · rw [hps]
              exact hb
            · exact beats_of_beats_lexle hb (h4 p hp2 hr hps).1
          exact ⟨beats_lexle hbp, fun _ _ => hbp⟩
      · rw [hqrec, h3] at hb
        have hkept : (chooseStep cfg st (cfg.FIRST_PROC + n)).1.proctab st.2 =
            st.1.proctab st.2 := by
          rcases chooseStep_incumbent cfg st _ hqne with ⟨_, f2⟩ | ⟨f1, _, _⟩
          · exact f2
          · exact absurd (f1.symm.trans e1) hqne
        refine ⟨hstate, ?_, hother, by rw [e1, hkept]; exact h3, ?_⟩
        · rw [e1]
          rcases h1 with h1 | h1
          · exact Or.inl h1
          · exact Or.inr ⟨⟨h1.1.1, by omega⟩, h1.2⟩
        · intro p hp hr hne
          rw [e1] at hne ⊢
          by_cases hpq : p = cfg.FIRST_PROC + n
          · rw [hpq]
            refine ⟨lexle_of_not_beats hb, fun hi hlt => ?_⟩
            rcases h1 with h1 | h1
            · exact absurd h1 hi
            · omega
          · exact h4 p (by omega) hr hne
    · have hnr : (st.1.proctab (cfg.FIRST_PROC + n)).state ≠ ProcState.READY := by
        rw [h0]
        exact hq
      have hsame : chooseStep cfg st (cfg.FIRST_PROC + n) = st := by
        unfold chooseStep
        rw [if_pos hnr]
      rw [hsame]
      refine ⟨h0, ?_, fun i hi hi2 => h2 i (by omega) hi2, h3, ?_⟩
      · rcases h1 with h1 | h1
        · exact Or.inl h1
        · exact Or.inr ⟨⟨h1.1.1, by omega⟩, h1.2⟩
      · intro p hp hr hne
        by_cases hpq : p = cfg.FIRST_PROC + n
        · rw [hpq] at hr
          exact absurd hr hq
        · exact h4 p (by omega) hr hne

/-- C19 (lowest weight wins within a band): if, when candidate selection begins,
some scanned process is READY, every scanned READY process is other than IDLE
and in the same band `q`, IDLE is not READY and is in a band greater than `q`,
and `q = 1` or `counter + 1` is below the aging threshold of band `q` for every
READY process, then the dispatched process is a scanned READY process whose
weight `priority + nice - counter` is minimal among the scanned READY processes,
and it is the earliest in table order among those of minimal weight. -/
theorem lowest_weight_wins (cfg : Config) (k : Kernel) (q : Int)
    (hex : ∃ p, inScan cfg p ∧ ((beforeChoice cfg k).proctab p).state = ProcState.READY)
    (hband : ∀ p, inScan cfg p → ((beforeChoice cfg k).proctab p).state = ProcState.READY →
      p ≠ cfg.IDLE ∧ ((beforeChoice cfg k).proctab p).queue = q)
    (hIr : ((beforeChoice cfg k).proctab cfg.IDLE).state ≠ ProcState.READY)
    (hIq : q < ((beforeChoice cfg k).proctab cfg.IDLE).queue)
    (hna : q = 1 ∨ ∀ p, inScan cfg p →
      ((beforeChoice cfg k).proctab p).state = ProcState.READY →
      ((beforeChoice cfg k).proctab p).counter + 1 <
        ((cfg.QUEUE_AMOUNT + 1) - q) * cfg.AGING_FACTOR) :
    (yield cfg k).curr_proc = chosen cfg k ∧
    inScan cfg (chosen cfg k) ∧
    ((beforeChoice cfg k).proctab (chosen cfg k)).state = ProcState.READY ∧
    (∀ p, inScan cfg p → ((beforeChoice cfg k).proctab p).state = ProcState.READY →
      weight ((beforeChoice cfg k).proctab (chosen cfg k)) ≤
        weight ((beforeChoice cfg k).proctab p) ∧
      (weight ((beforeChoice cfg k).proctab p) =
          weight ((beforeChoice cfg k).proctab (chosen cfg k)) → chosen cfg k ≤ p)) := by
  have hbest := chooseNext_best cfg (beforeChoice cfg k) (fun h => hIr h.2) (by
    intro p hp hr
    unfold noAging
    rw [(hband p hp hr).2]
    rcases hna with h | h
    · exact Or.inl h
    · exact Or.inr (h p hp hr))
  obtain ⟨b1, _, b3⟩ := hbest
  have hne : (chooseNext cfg (beforeChoice cfg k)).2 ≠ cfg.IDLE := by
    intro e
    obtain ⟨p, hp, hr⟩ := hex
    have hb := hband p hp hr
    have h := (b3 p hp hr (by rw [e]; exact hb.1)).1
    rw [e] at h
    unfold lexle at h
    omega
  have hsel : inScan cfg (chooseNext cfg (beforeChoice cfg k)).2 ∧
      ((beforeChoice cfg k).proctab (chooseNext cfg (beforeChoice cfg k)).2).state =
        ProcState.READY := by
    rcases b1 with h | h
    · exact absurd h hne
    · exact ⟨h.1, h.2.1⟩
  have hqn := (hband _ hsel.1 hsel.2).2
  refine ⟨(yield_post_facts cfg k).2.2.2.2.2.1, hsel.1, hsel.2, fun p hp hr => ?_⟩
  unfold chosen
  by_cases hpn : p = (chooseNext cfg (beforeChoice cfg k)).2
  · rw [← hpn]
    exact ⟨le_refl _, fun _ => le_refl _⟩
  · have hqp := (hband p hp hr).2
    obtain ⟨c1, c2⟩ := b3 p hp hr hpn
    refine ⟨?_, fun hw => ?_⟩
    · unfold lexle at c1
      omega
    · by_contra hlt
      have hb := c2 hne (by omega)
      unfold beats at hb
      omega

/-! ## Aging of a process that is passed over -/

/-- A READY scanned process that is passed over in a cycle ends the cycle with
its counter incremented once, before or after the aging test. -/
theorem yield_passed (cfg : Config) (s : Kernel) (p : Nat)
    (hp : inScan cfg p) (hpi : p ≠ cfg.IDLE) (hr : (s.proctab p).state = ProcState.READY)
    (hpo : PassedOver cfg p s) :
    (yield cfg s).proctab p = agedRec cfg (bumped (s.proctab p)) ∨
    (yield cfg s).proctab p = bumped (agedRec cfg (s.proctab p)) := by
  obtain ⟨hcur, hnf, hch⟩ := hpo
  have ht : (reclassify cfg s).ticks = s.ticks := by
    have := reclassify_globals cfg s
    simp only [Kernel.globals, Prod.mk.injEq] at this
    exact this.2.2.1
  have hrec : (reclassify cfg s).proctab p = s.proctab p :=
    reclassify_other cfg s p (fun e => hcur e.symm)
  have hb : (beforeChoice cfg s).proctab p = s.proctab p := by
    unfold beforeChoice
    rw [(checkAlarms_spec cfg _).2.1 p, ht, hrec, if_neg (fun h => hnf h.2)]
  unfold yield
  rw [dispatch_other cfg _ p (fun e => hch e.symm)]
  rcases chooseNext_passed cfg (beforeChoice cfg s) p hp hpi (by rw [hb]; exact hr) with
    ⟨e, _⟩ | ⟨_, e⟩
  · exact absurd e hch
  · rw [hb] at e
    exact e

theorem agingBound_succ (cfg : Config) (n : Nat) :
    agingBound cfg (n + 2) =
      agingBound cfg (n + 1) + (agingThreshold cfg ((n : Int) + 2) + 1) := rfl

theorem agingThreshold_pos (cfg : Config) (hAF : 1 ≤ cfg.AGING_FACTOR) (q : Int)
    (hq : q ≤ cfg.QUEUE_AMOUNT) : 1 ≤ agingThreshold cfg q := by
  unfold agingThreshold
  have := le_mul_of_one_le (cfg.QUEUE_AMOUNT + 1 - q) cfg.AGING_FACTOR (by omega) (by omega)
  omega

theorem agingBound_nonneg (cfg : Config) (hAF : 1 ≤ cfg.AGING_FACTOR) (n : Nat)
    (hn : (n : Int) ≤ cfg.QUEUE_AMOUNT) : 0 ≤ agingBound cfg n := by
  induction n with
  | zero => exact le_refl _
  | succ m ih =>
    cases m with
    | zero => exact le_refl _
    | succ j =>
      rw [agingBound_succ]
      have h1 := ih (by push_cast at hn ⊢; omega)
      have h2 := agingThreshold_pos cfg hAF ((j : Int) + 2) (by push_cast at hn; omega)
      omega

/-- The claimed bound, written as a sum over the bands 2 to `n`. -/
theorem agingBound_sum (cfg : Config) (n : Nat) (hn : 1 ≤ n) :
    agingBound cfg n =
      Finset.sum (Finset.Icc 2 n)
        (fun j => (cfg.QUEUE_AMOUNT + 1 - (j : Int)) * cfg.AGING_FACTOR) + ((n : Int) - 1) := by
  induction n with
  | zero => omega
  | succ m ih =>
    cases m with
    | zero => simp [agingBound]
    | succ j =>
      have h := Finset.sum_Icc_succ_top (show 2 ≤ (j + 1) + 1 by omega)
        (fun i : Nat => (cfg.QUEUE_AMOUNT + 1 - (i : Int)) * cfg.AGING_FACTOR)
      rw [agingBound_succ, h, ih (by omega)]
      unfold agingThreshold
      push_cast
      ring

theorem agedRec_due (cfg : Config) (r : Process) (h : agingDue cfg r) :
    agedRec cfg r = { r with counter := 0, queue := r.queue - 1 } := by
  unfold agedRec
  exact if_pos h

theorem agedRec_notDue (cfg : Config) (r : Process) (h : ¬ agingDue cfg r) :
    agedRec cfg r = r := by
  unfold agedRec
  exact if_neg h

theorem agingDue_iff (cfg : Config) (r : Process) :
    agingDue cfg r ↔ (agingThreshold cfg r.queue ≤ r.counter ∧ r.queue ≠ 1) := Iff.rfl

/-- One passed-over cycle brings a READY process at least one step closer to
band 1. -/
theorem aging_progress (cfg : Config) (hAF : 1 ≤ cfg.AGING_FACTOR) (r r1 : Process) (b : Nat)
    (hq : r.queue = b) (hb1 : 1 ≤ b) (hbQ : (b : Int) ≤ cfg.QUEUE_AMOUNT)
    (hc0 : 0 ≤ r.counter) (hcT : 2 ≤ b → r.counter ≤ agingThreshold cfg b)
    (hr1 : r1 = agedRec cfg (bumped r) ∨ r1 = bumped (agedRec cfg r)) :
    r1.state = r.state ∧
    ∃ b1 : Nat, r1.queue = b1 ∧ 1 ≤ b1 ∧ (b1 : Int) ≤ cfg.QUEUE_AMOUNT ∧ 0 ≤ r1.counter ∧
      (2 ≤ b1 → r1.counter ≤ agingThreshold cfg b1) ∧
      (b1 = 1 ∨ (2 ≤ b ∧
        agingBound cfg b1 - r1.counter + 1 ≤ agingBound cfg b - r.counter)) := by
  by_cases hb : b = 1
  · subst hb
    have hq1 : r.queue = 1 := by simpa using hq
    have hnd : ¬ agingDue cfg r := fun h => h.2 hq1
    have hnd2 : ¬ agingDue cfg (bumped r) := fun h => h.2 hq1
    have e : r1 = bumped r := by
      rcases hr1 with h | h
      · rw [h, agedRec_notDue cfg _ hnd2]
      · rw [h, agedRec_notDue cfg _ hnd]
    subst e
    refine ⟨rfl, 1, by simpa [bumped] using hq1, le_refl _, hbQ, ?_, fun h => by omega,
      Or.inl rfl⟩
    simp only [bumped]
    omega
  · obtain ⟨m, rfl⟩ : ∃ m, b = m + 2 := ⟨b - 2, by omega⟩
    have hcast : ((m + 2 : Nat) : Int) = (m : Int) + 2 := by push_cast; ring
    have hcast1 : ((m + 1 : Nat) : Int) = (m : Int) + 1 := by push_cast; ring
    rw [hcast] at hq hbQ hcT
    have hT := agingThreshold_pos cfg hAF ((m : Int) + 2) hbQ
    have hT1 := agingThreshold_pos cfg hAF ((m : Int) + 1) (by omega)
    have hcT2 := hcT (by omega)
    have hS := agingBound_succ cfg m
    have hne1 : r.queue ≠ 1 := by omega
    have low : ∀ c : Int, 0 ≤ c → (2 ≤ m + 1 → c ≤ agingThreshold cfg ((m : Int) + 1)) →
        c ≤ r.counter + 1 - agingThreshold cfg ((m : Int) + 2) + 1 →
        ∃ b1 : Nat, (r.queue - 1 : Int) = b1 ∧ 1 ≤ b1 ∧ (b1 : Int) ≤ cfg.QUEUE_AMOUNT ∧ 0 ≤ c ∧
          (2 ≤ b1 → c ≤ agingThreshold cfg b1) ∧
          (b1 = 1 ∨ (2 ≤ m + 2 ∧
            agingBound cfg b1 - c + 1 ≤ agingBound cfg (m + 2) - r.counter)) := by
      intro c hc hcle hcost
      refine ⟨m + 1, by rw [hcast1]; omega, by omega, by rw [hcast1]; omega, hc,
        fun h => by rw [hcast1]; exact hcle h, Or.inr ⟨by omega, ?_⟩⟩
      rw [hS]
      omega
    have stay : r.counter + 1 ≤ agingThreshold cfg ((m : Int) + 2) →
        ∃ b1 : Nat, r.queue = b1 ∧ 1 ≤ b1 ∧ (b1 : Int) ≤ cfg.QUEUE_AMOUNT ∧
          0 ≤ r.counter + 1 ∧ (2 ≤ b1 → r.counter + 1 ≤ agingThreshold cfg b1) ∧
          (b1 = 1 ∨ (2 ≤ m + 2 ∧ agingBound cfg b1 - (r.counter + 1) + 1 ≤
            agingBound cfg (m + 2) - r.counter)) := by
      intro hle
      refine ⟨m + 2, by rw [hcast]; exact hq, by omega, by rw [hcast]; exact hbQ, by omega,
        fun _ => by rw [hcast]; exact hle, Or.inr ⟨by omega, by omega⟩⟩
    rcases hr1 with h | h
    · by_cases hd : agingDue cfg (bumped r)
      · rw [h, agedRec_due cfg _ hd]
        have hd1 : agingThreshold cfg ((m : Int) + 2) ≤ r.counter + 1 := by
          have := ((agingDue_iff cfg _).1 hd).1
          simp only [bumped] at this
          rw [hq] at this
          exact this
        refine ⟨rfl, ?_⟩
        simp only [bumped]
        exact low 0 (le_refl _) (fun _ => by omega) (by omega)
      · rw [h, agedRec_notDue cfg _ hd]
        have hd1 : r.counter + 1 < agingThreshold cfg ((m : Int) + 2) := by
          by_contra hge
          apply hd
          refine (agingDue_iff cfg _).2 ⟨?_, hne1⟩
          simp only [bumped]
          rw [hq]
          omega
        refine ⟨rfl, ?_⟩
        simp only [bumped]
        exact stay (by omega)
    · by_cases hd : agingDue cfg r
      · rw [h, agedRec_due cfg _ hd]
        have hd1 : agingThreshold cfg ((m : Int) + 2) ≤ r.counter := by
          have := ((agingDue_iff cfg _).1 hd).1
          rw [hq] at this
          exact this
        refine ⟨rfl, ?_⟩
        simp only [bumped]
        have := low (0 + 1) (by omega) (fun _ => by omega) (by omega)
        simpa using this
      · rw [h, agedRec_notDue cfg _ hd]
        have hd1 : r.counter < agingThreshold cfg ((m : Int) + 2) := by
          by_contra hge
          apply hd
          refine (agingDue_iff cfg _).2 ⟨?_, hne1⟩
          rw [hq]
          omega
        refine ⟨rfl, ?_⟩
        simp only [bumped]
        exact stay (by omega)

theorem agingBound_above (cfg : Config) (hAF : 1 ≤ cfg.AGING_FACTOR) (b : Nat) (c : Int)
    (hb : 2 ≤ b) (hbQ : (b : Int) ≤ cfg.QUEUE_AMOUNT) (hc : c ≤ agingThreshold cfg b) :
    1 ≤ agingBound cfg b - c := by
  obtain ⟨m, rfl⟩ : ∃ m, b = m + 2 := ⟨b - 2, by omega⟩
  have hcast : ((m + 2 : Nat) : Int) = (m : Int) + 2 := by push_cast; ring
  rw [hcast] at hc hbQ
  have h1 := agingBound_nonneg cfg hAF (m + 1) (by push_cast; omega)
  rw [agingBound_succ]
  omega

/-- Progress of a READY process over a run of cycles in which it is passed
over. -/
theorem aging_run (cfg : Config) (hAF : 1 ≤ cfg.AGING_FACTOR) (p : Nat)
    (hp : inScan cfg p) (hpi : p ≠ cfg.IDLE) (envs : List (Kernel → Kernel)) :
    ∀ (k : Kernel) (b : Nat), (k.proctab p).state = ProcState.READY →
      (k.proctab p).queue = b → 1 ≤ b → (b : Int) ≤ cfg.QUEUE_AMOUNT →
      0 ≤ (k.proctab p).counter →
      (2 ≤ b → (k.proctab p).counter ≤ agingThreshold cfg b) →
      passedOverRun cfg p k envs →
      ∃ b1 : Nat, ((runCycles cfg k envs).proctab p).queue = b1 ∧ 1 ≤ b1 ∧
        (b1 : Int) ≤ cfg.QUEUE_AMOUNT ∧
        ((runCycles cfg k envs).proctab p).state = ProcState.READY ∧
        (2 ≤ b1 → ((runCycles cfg k envs).proctab p).counter ≤ agingThreshold cfg b1) ∧
        (b1 = 1 ∨ (2 ≤ b ∧
          agingBound cfg b1 - ((runCycles cfg k envs).proctab p).counter + envs.length ≤
            agingBound cfg b - (k.proctab p).counter)) := by
  induction envs with
  | nil =>
    intro k b hr hq hb1 hbQ _ hcT _
    exact ⟨b, hq, hb1, hbQ, hr, hcT, by
      by_cases hb : b = 1
      · exact Or.inl hb
      · exact Or.inr ⟨by omega, by simp [runCycles]⟩⟩
  | cons e es ih =>
    intro k b hr hq hb1 hbQ hc0 hcT hrun
    obtain ⟨he, hpo, hrest⟩ := hrun
    have hstep := yield_passed cfg (e k) p hp hpi (by rw [he]; exact hr) hpo
    rw [he] at hstep
    obtain ⟨hs1, b1, g1, g2, g3, g4, g5, g6⟩ :=
      aging_progress cfg hAF (k.proctab p) ((yield cfg (e k)).proctab p) b hq hb1 hbQ hc0 hcT
        hstep
    obtain ⟨b2, f1, f2, f3, f4, f5, f6⟩ :=
      ih (yield cfg (e k)) b1 (hs1.trans hr) g1 g2 g3 g4 g5 hrest
    have hrun2 : runCycles cfg k (e :: es) = runCycles cfg (yield cfg (e k)) es := rfl
    rw [hrun2]
    refine ⟨b2, f1, f2, f3, f4, f5, ?_⟩
    rcases f6 with f6 | ⟨f6, f7⟩
    · exact Or.inl f6
    · rcases g6 with g6 | ⟨g6, g7⟩
      · omega
      · refine Or.inr ⟨g6, ?_⟩
        simp only [List.length_cons]
        push_cast
        omega

/-- C13 (aging termination): with `AGING_FACTOR ≥ 1`, a scanned process `p`
other than IDLE that is READY in band `q`, `2 ≤ q ≤ QUEUE_AMOUNT`, with counter
0, and that is passed over in each of `N` consecutive cycles (it is not touched
by the rest of the kernel, is not the outgoing process, is not signalled and is
not dispatched), is in band 1 after those cycles whenever `N` is at least the
sum over `j = 2..q` of `(QUEUE_AMOUNT + 1 - j) * AGING_FACTOR`, plus `q - 1`. -/
theorem aging_termination (cfg : Config) (hAF : 1 ≤ cfg.AGING_FACTOR) (p : Nat)
    (hp : inScan cfg p) (hpi : p ≠ cfg.IDLE) (q : Nat) (hq2 : 2 ≤ q)
    (hqQ : (q : Int) ≤ cfg.QUEUE_AMOUNT) (k : Kernel)
    (hr : (k.proctab p).state = ProcState.READY)
    (hq : (k.proctab p).queue = q) (hc : (k.proctab p).counter = 0)
    (envs : List (Kernel → Kernel)) (hrun : passedOverRun cfg p k envs)
    (hN : Finset.sum (Finset.Icc 2 q)
        (fun j => (cfg.QUEUE_AMOUNT + 1 - (j : Int)) * cfg.AGING_FACTOR) + ((q : Int) - 1) ≤
      envs.length) :
    ((runCycles cfg k envs).proctab p).queue = 1 := by
  have hT := agingThreshold_pos cfg hAF q hqQ
  obtain ⟨b1, f1, f2, f3, _, f5, f6⟩ :=
    aging_run cfg hAF p hp hpi envs k q hr hq (by omega) hqQ (by omega) (fun _ => by omega) hrun
  rw [← agingBound_sum cfg q (by omega)] at hN
  have hb : b1 = 1 := by
    rcases f6 with f6 | ⟨_, f7⟩
    · exact f6
    · by_contra hne
      have := agingBound_above cfg hAF b1 _ (by omega) f3 (f5 (by omega))
      omega
  rw [f1, hb]
  rfl

/-! ## The three-process scenario -/

theorem chooseNext_queue_unscanned (cfg : Config) (k : Kernel) (i : Nat)
    (h : ¬ (inScan cfg i ∧ (k.proctab i).state = ProcState.READY)) :
    ((chooseNext cfg k).1.proctab i).queue = (k.proctab i).queue := by
  have key := range_fold_rule (chooseStep cfg)
    (fun _ st => (st.1.proctab i).queue = (k.proctab i).queue ∧
      (st.1.proctab i).state = (k.proctab i).state)
    cfg.FIRST_PROC (cfg.LAST_PROC + 1 - cfg.FIRST_PROC) (k, cfg.IDLE) ⟨rfl, rfl⟩ ?_
  · exact key.1
  · intro n st hn hst
    refine ⟨?_, ((chooseStep_fields cfg st _ i).1).trans hst.2⟩
    by_cases hi : i = cfg.FIRST_PROC + n
    · have hnr : (st.1.proctab i).state ≠ ProcState.READY := by
        rw [hst.2]
        exact fun hr => h ⟨by rw [hi]; exact ⟨by omega, by omega⟩, hr⟩
      rw [chooseStep_queue_notReady cfg st _ i hnr]
      exact hst.1
    · rw [chooseStep_queue_other cfg st _ i hi]
      exact hst.1

theorem alarmStep_quiet (cfg : Config) (k : Kernel) (p : Nat)
    (h : (k.proctab p).alarm = 0) : alarmStep cfg k p = k := by
  unfold alarmStep
  split_ifs with h1 h2
  · rfl
  · exact absurd h h2.1
  · rfl

theorem checkAlarms_quiet (cfg : Config) (k : Kernel) (h : ∀ i, (k.proctab i).alarm = 0) :
    checkAlarms cfg k = k := by
  unfold checkAlarms
  refine foldl_keeps (fun st => st = k) (alarmStep cfg) ?_ (procSlots cfg) k rfl
  intro a b ha
  rw [ha]
  exact alarmStep_quiet cfg k b (h b)

theorem dispatch_self (cfg : Config) (st : Kernel × Nat) :
    (dispatch cfg st).proctab st.2 =
      { st.1.proctab st.2 with
        priority := cfg.PRIO_USER
        state := ProcState.RUNNING
        counter := (st.1.proctab st.2).queue * cfg.PROC_QUANTUM } := by
  simp [dispatch, switch_to]

theorem trio_scan (cfg : Config) (t : Kernel) (A B C X : Nat) (h : TrioAt cfg t A B C)
    (hX : X = A ∨ X = B ∨ X = C) :
    inScan cfg X ∧ X ≠ cfg.IDLE ∧ (t.proctab X).state = ProcState.READY := by
  obtain ⟨a1, a2, a3, a4, a5, a6, a7, a8, a9, a10, _⟩ := h
  have hB : inScan cfg B := ⟨by have := a1.1; omega, by have := a4.2; omega⟩
  rcases hX with rfl | rfl | rfl
  · exact ⟨a1, a5, a8⟩
  · exact ⟨hB, a6, a9⟩
  · exact ⟨a4, a7, a10⟩

/-- The selection loop in the scenario: a process `W` of band at most 3 that is
in a better band than each of the other two, or ties with it in band and weight
while being scanned earlier, is selected; its record is kept and the counters of
the other two are incremented. -/
theorem trio_winner (cfg : Config) (t : Kernel) (A B C W : Nat) (h : TrioAt cfg t A B C)
    (hW : W = A ∨ W = B ∨ W = C) (hW3 : (t.proctab W).queue ≤ 3)
    (hna : ∀ X, X = A ∨ X = B ∨ X = C → noAging cfg (t.proctab X))
    (hbest : ∀ X, X = A ∨ X = B ∨ X = C → X ≠ W →
      (t.proctab W).queue < (t.proctab X).queue ∨
      (W < X ∧ (t.proctab X).queue = (t.proctab W).queue ∧
        weight (t.proctab W) ≤ weight (t.proctab X))) :
    (chooseNext cfg t).2 = W ∧
    (chooseNext cfg t).1.proctab W = t.proctab W ∧
    (∀ X, X = A ∨ X = B ∨ X = C → X ≠ W →
      (chooseNext cfg t).1.proctab X = bumped (t.proctab X)) := by
  have htrio : ∀ i, inScan cfg i → (t.proctab i).state = ProcState.READY →
      i = A ∨ i = B ∨ i = C := by
    intro i hi hr
    by_contra hne
    push_neg at hne
    exact h.2.2.2.2.2.2.2.2.2.2.1 i hi hne.1 hne.2.1 hne.2.2 hr
  have hI : ¬ (inScan cfg cfg.IDLE ∧ (t.proctab cfg.IDLE).state = ProcState.READY) := by
    intro hc
    rcases htrio _ hc.1 hc.2 with e | e | e
    · exact h.2.2.2.2.1 e.symm
    · exact h.2.2.2.2.2.1 e.symm
    · exact h.2.2.2.2.2.2.1 e.symm
  obtain ⟨b1, b2, b3⟩ := chooseNext_best cfg t hI
    (fun p hp hr => hna p (htrio p hp hr))
  have hWs := trio_scan cfg t A B C W h hW
  have hsel : (chooseNext cfg t).2 = W := by
    by_contra hne
    obtain ⟨c1, c2⟩ := b3 W hWs.1 hWs.2.2 (fun e => hne e.symm)
    have hq := lexle_queue c1
    rcases b1 with e | ⟨e1, e2, _⟩
    · rw [e] at hq
      have := h.2.2.2.2.2.2.2.2.2.2.2.1
      omega
    · have hn := htrio _ e1 e2
      have hni := (trio_scan cfg t A B C _ h hn).2.1
      rcases hbest _ hn hne with hb | ⟨hb1, hb2, hb3⟩
      · omega
      · have := c2 hni hb1
        unfold beats at this
        omega
  refine ⟨hsel, by rw [← hsel]; exact b2, fun X hX hXW => ?_⟩
  have hXs := trio_scan cfg t A B C X h hX
  exact chooseNext_credit cfg t X hXs.1 hXs.2.1 hXs.2.2 (hna X hX)
    (by rw [hsel]; exact fun e => hXW e.symm)

/-- From one cycle of the scenario to the next: after the dispatch of `W` and
the first two parts of the next cycle the scenario still holds; `W` has been
preempted, the other records are as the selection loop left them. -/
theorem trio_next (cfg : Config) (t : Kernel) (A B C W : Nat) (h : TrioAt cfg t A B C)
    (hW : W = A ∨ W = B ∨ W = C) (hsel : (chooseNext cfg t).2 = W) :
    TrioAt cfg (beforeChoice cfg (dispatch cfg (chooseNext cfg t))) A B C ∧
    (beforeChoice cfg (dispatch cfg (chooseNext cfg t))).proctab W =
      { (chooseNext cfg t).1.proctab W with
        priority := cfg.PRIO_USER
        state := ProcState.READY
        counter := 0
        queue := if ((chooseNext cfg t).1.proctab W).queue < cfg.QUEUE_AMOUNT
          then ((chooseNext cfg t).1.proctab W).queue + 1
          else ((chooseNext cfg t).1.proctab W).queue } ∧
    (∀ i, i ≠ W → (beforeChoice cfg (dispatch cfg (chooseNext cfg t))).proctab i =
      (chooseNext cfg t).1.proctab i) := by
  have hcur : (dispatch cfg (chooseNext cfg t)).curr_proc = W := by
    rw [(dispatch_running cfg _).2.1, hsel]
  have hself := dispatch_self cfg (chooseNext cfg t)
  rw [hsel] at hself
  have hal : ∀ i, ((reclassify cfg (dispatch cfg (chooseNext cfg t))).proctab i).alarm = 0 := by
    intro i
    rw [reclassify_alarm, (dispatch_alarm cfg _ i).1, (chooseNext_fields cfg t i).2.2.2.1]
    exact h.2.2.2.2.2.2.2.2.2.2.2.2 i
  have hbc : beforeChoice cfg (dispatch cfg (chooseNext cfg t)) =
      reclassify cfg (dispatch cfg (chooseNext cfg t)) := by
    unfold beforeChoice
    exact checkAlarms_quiet cfg _ hal
  have hrW : (reclassify cfg (dispatch cfg (chooseNext cfg t))).proctab W =
      { (chooseNext cfg t).1.proctab W with
        priority := cfg.PRIO_USER
        state := ProcState.READY
        counter := 0
        queue := if ((chooseNext cfg t).1.proctab W).queue < cfg.QUEUE_AMOUNT
          then ((chooseNext cfg t).1.proctab W).queue + 1
          else ((chooseNext cfg t).1.proctab W).queue } := by
    have hr := (reclassify_curr cfg (dispatch cfg (chooseNext cfg t))).1
    rw [hcur] at hr
    rw [hr (by rw [hself]), hself]
  have hother : ∀ i, i ≠ W → (reclassify cfg (dispatch cfg (chooseNext cfg t))).proctab i =
      (chooseNext cfg t).1.proctab i := by
    intro i hi
    rw [reclassify_other cfg _ i (by rw [hcur]; exact hi),
      dispatch_other cfg _ i (by rw [hsel]; exact hi)]
  have hstate : ∀ i, ((reclassify cfg (dispatch cfg (chooseNext cfg t))).proctab i).state =
      ProcState.READY ↔ (i = W ∨ (t.proctab i).state = ProcState.READY) := by
    intro i
    by_cases hi : i = W
    · rw [hi, hrW]
      simp
    · rw [hother i hi, (chooseNext_fields cfg t i).1]
      simp [hi]
  have hWs := trio_scan cfg t A B C W h hW
  rw [hbc]
  refine ⟨?_, hrW, hother⟩
  obtain ⟨a1, a2, a3, a4, a5, a6, a7, a8, a9, a10, a11, a12, _⟩ := h
  refine ⟨a1, a2, a3, a4, a5, a6, a7, (hstate A).2 (Or.inr a8), (hstate B).2 (Or.inr a9),
    (hstate C).2 (Or.inr a10), ?_, ?_, hal⟩
  · intro i hi hA hB hC hr
    rcases (hstate i).1 hr with e | e
    · rcases hW with w | w | w
      · exact hA (e.trans w)
      · exact hB (e.trans w)
      · exact hC (e.trans w)
    · exact a11 i hi hA hB hC e
  · rw [hother cfg.IDLE (fun e => hWs.2.1 e.symm), chooseNext_queue_unscanned cfg t]
    · exact a12
    · intro hc
      have hIA : cfg.IDLE ≠ A := fun e => a5 e.symm
      have hIB : cfg.IDLE ≠ B := fun e => a6 e.symm
      have hIC : cfg.IDLE ≠ C := fun e => a7 e.symm
      exact a11 _ hc.1 hIA hIB hIC hc.2

/-- One cycle of the scenario, started in `s`: the process `W` of band 3 that
wins the selection is dispatched with counter `3 * PROC_QUANTUM`, the counters
of the other two are incremented once, and when candidate selection of the next
cycle begins the scenario holds again with `W` preempted into band 4. -/
theorem trio_stage (cfg : Config) (s : Kernel) (A B C W : Nat)
    (h : TrioAt cfg (beforeChoice cfg s) A B C) (hW : W = A ∨ W = B ∨ W = C)
    (hQA : 4 ≤ cfg.QUEUE_AMOUNT) (hW3 : ((beforeChoice cfg s).proctab W).queue = 3)
    (hna : ∀ X, X = A ∨ X = B ∨ X = C → noAging cfg ((beforeChoice cfg s).proctab X))
    (hbest : ∀ X, X = A ∨ X = B ∨ X = C → X ≠ W →
      ((beforeChoice cfg s).proctab W).queue < ((beforeChoice cfg s).proctab X).queue ∨
      (W < X ∧ ((beforeChoice cfg s).proctab X).queue = ((beforeChoice cfg s).proctab W).queue ∧
        weight ((beforeChoice cfg s).proctab W) ≤ weight ((beforeChoice cfg s).proctab X))) :
    chosen cfg s = W ∧
    ((yield cfg s).proctab W).counter = 3 * cfg.PROC_QUANTUM ∧
    (∀ X, X = A ∨ X = B ∨ X = C → X ≠ W →
      (yield cfg s).proctab X = bumped ((beforeChoice cfg s).proctab X)) ∧
    TrioAt cfg (beforeChoice cfg (yield cfg s)) A B C ∧
    (beforeChoice cfg (yield cfg s)).proctab W =
      { (beforeChoice cfg s).proctab W with
        priority := cfg.PRIO_USER
        state := ProcState.READY
        counter := 0
        queue := 4 } ∧
    (∀ X, X = A ∨ X = B ∨ X = C → X ≠ W →
      (beforeChoice cfg (yield cfg s)).proctab X = bumped ((beforeChoice cfg s).proctab X)) := by
  obtain ⟨w1, w2, w3⟩ := trio_winner cfg (beforeChoice cfg s) A B C W h hW (by omega) hna hbest
  obtain ⟨n1, n2, n3⟩ := trio_next cfg (beforeChoice cfg s) A B C W h hW w1
  have hy : yield cfg s = dispatch cfg (chooseNext cfg (beforeChoice cfg s)) := rfl
  have hself := dispatch_self cfg (chooseNext cfg (beforeChoice cfg s))
  rw [w1, w2] at hself
  rw [hy]
  refine ⟨w1, ?_, fun X hX hXW => ?_, n1, ?_, fun X hX hXW => ?_⟩
  · rw [hself]
    simp only
    rw [hW3]
  · rw [dispatch_other cfg _ X (by rw [w1]; exact hXW), w3 X hX hXW]
  · rw [n2, w2, hW3, if_pos (by omega)]
    norm_num
  · rw [n3 X hXW, w3 X hX hXW]

/-- C12, amended (end-to-end scenario): let `QUEUE_AMOUNT ≥ 4` and let the aging
thresholds of bands 3 and 4 exceed 3 and 2.  If, when candidate selection of the
first cycle begins, the scanned READY processes are exactly `A`, `B`, `C`, in
that table order and other than IDLE, all in band 3 with the same priority and
nice and counter 0, IDLE is in a band greater than 3 and no alarm is armed, then
three cycles in a row dispatch `A`, then `B`, then `C`, each with counter
`3 * PROC_QUANTUM`, and in each cycle the counter of each of the two processes
that are not dispatched is one more at the end of the cycle than when candidate
selection began. -/
theorem scenario_abc (cfg : Config) (k : Kernel) (A B C : Nat) (p0 n0 : Int)
    (hQA : 4 ≤ cfg.QUEUE_AMOUNT)
    (h3 : 3 < ((cfg.QUEUE_AMOUNT + 1) - 3) * cfg.AGING_FACTOR)
    (h4 : 2 < ((cfg.QUEUE_AMOUNT + 1) - 4) * cfg.AGING_FACTOR)
    (ht : TrioAt cfg (beforeChoice cfg k) A B C)
    (hrec : ∀ X, X = A ∨ X = B ∨ X = C →
      ((beforeChoice cfg k).proctab X).queue = 3 ∧
      ((beforeChoice cfg k).proctab X).counter = 0 ∧
      ((beforeChoice cfg k).proctab X).priority = p0 ∧
      ((beforeChoice cfg k).proctab X).nice = n0) :
    (chosen cfg k = A ∧ chosen cfg (yield cfg k) = B ∧
      chosen cfg (yield cfg (yield cfg k)) = C) ∧
    ((yield cfg k).curr_proc = A ∧ (yield cfg (yield cfg k)).curr_proc = B ∧
      (yield cfg (yield cfg (yield cfg k))).curr_proc = C) ∧
    (((yield cfg k).proctab A).counter = 3 * cfg.PROC_QUANTUM ∧
      ((yield cfg (yield cfg k)).proctab B).counter = 3 * cfg.PROC_QUANTUM ∧
      ((yield cfg (yield cfg (yield cfg k))).proctab C).counter = 3 * cfg.PROC_QUANTUM) ∧
    (((yield cfg k).proctab B).counter = ((beforeChoice cfg k).proctab B).counter + 1 ∧
      ((yield cfg k).proctab C).counter = ((beforeChoice cfg k).proctab C).counter + 1) ∧
    (((yield cfg (yield cfg k)).proctab A).counter =
        ((beforeChoice cfg (yield cfg k)).proctab A).counter + 1 ∧
      ((yield cfg (yield cfg k)).proctab C).counter =
        ((beforeChoice cfg (yield cfg k)).proctab C).counter + 1) ∧
    (((yield cfg (yield cfg (yield cfg k))).proctab A).counter =
        ((beforeChoice cfg (yield cfg (yield cfg k))).proctab A).counter + 1 ∧
      ((yield cfg (yield cfg (yield cfg k))).proctab B).counter =
        ((beforeChoice cfg (yield cfg (yield cfg k))).proctab B).counter + 1) := by
  have hAB : A ≠ B := by have := ht.2.1; omega
  have hBC : B ≠ C := by have := ht.2.2.1; omega
  have hAC : A ≠ C := by have := ht.2.1; have := ht.2.2.1; omega
  have hltAB : A < B := ht.2.1
  have hltBC : B < C := ht.2.2.1
  obtain ⟨a1, a2, a3, a4⟩ := hrec A (Or.inl rfl)
  obtain ⟨b1, b2, b3, b4⟩ := hrec B (Or.inr (Or.inl rfl))
  obtain ⟨c1, c2, c3, c4⟩ := hrec C (Or.inr (Or.inr rfl))
  -- first cycle
  obtain ⟨s1, s2, s3, s4, s5, s6⟩ := trio_stage cfg k A B C A ht (Or.inl rfl) hQA a1
    (by
      intro X hX
      obtain ⟨x1, x2, _, _⟩ := hrec X hX
      unfold noAging
      rw [x1, x2]
      exact Or.inr (by linarith))
    (by
      intro X hX hXA
      obtain ⟨x1, x2, x3, x4⟩ := hrec X hX
      refine Or.inr ⟨?_, by rw [x1, a1], ?_⟩
      · rcases hX with e | e | e
        · exact absurd e hXA
        · rw [e]; exact hltAB
        · rw [e]; omega
      · unfold weight
        rw [x2, x3, x4, a2, a3, a4])
  have tB := s6 B (Or.inr (Or.inl rfl)) (fun e => hAB e.symm)
  have tC := s6 C (Or.inr (Or.inr rfl)) (fun e => hAC e.symm)
  -- second cycle
  obtain ⟨u1, u2, u3, u4, u5, u6⟩ := trio_stage cfg (yield cfg k) A B C B s4
    (Or.inr (Or.inl rfl)) hQA (by rw [tB]; exact b1)
    (by
      intro X hX
      unfold noAging
      rcases hX with e | e | e
      · rw [e, s5]
        exact Or.inr (by simp only; linarith)
      · rw [e, tB]
        simp only [bumped]
        rw [b1, b2]
        exact Or.inr (by linarith)
      · rw [e, tC]
        simp only [bumped]
        rw [c1, c2]
        exact Or.inr (by linarith))
    (by
      intro X hX hXB
      rcases hX with e | e | e
      · rw [e, s5, tB]
        simp only [bumped]
        rw [b1]
        exact Or.inl (by norm_num)
      · exact absurd e hXB
      · rw [e, tB, tC]
        refine Or.inr ⟨hltBC, ?_, ?_⟩
        · simp only [bumped]
          rw [b1, c1]
        · unfold weight
          simp only [bumped]
          rw [b2, b3, b4, c2, c3, c4])
  have vA := u6 A (Or.inl rfl) hAB
  have vC := u6 C (Or.inr (Or.inr rfl)) (fun e => hBC e.symm)
  -- third cycle
  obtain ⟨v1, v2, v3, _, _, _⟩ := trio_stage cfg (yield cfg (yield cfg k)) A B C C u4
    (Or.inr (Or.inr rfl)) hQA (by rw [vC, tC]; exact c1)
    (by
      intro X hX
      unfold noAging
      rcases hX with e | e | e
      · rw [e, vA, s5]
        simp only [bumped]
        exact Or.inr (by linarith)
      · rw [e, u5]
        exact Or.inr (by simp only; linarith)
      · rw [e, vC, tC]
        simp only [bumped]
        rw [c1, c2]
        exact Or.inr (by linarith))
    (by
      intro X hX hXC
      rcases hX with e | e | e
      · rw [e, vA, vC, s5, tC]
        simp only [bumped]
        rw [c1]
        exact Or.inl (by norm_num)
      · rw [e, u5, vC, tC]
        simp only [bumped]
        rw [c1]
        exact Or.inl (by norm_num)
      · exact absurd e hXC)
  have p1 := (yield_post_facts cfg k).2.2.2.2.2.1
  have p2 := (yield_post_facts cfg (yield cfg k)).2.2.2.2.2.1
  have p3 := (yield_post_facts cfg (yield cfg (yield cfg k))).2.2.2.2.2.1
  refine ⟨⟨s1, u1, v1⟩, ⟨p1.trans s1, p2.trans u1, p3.trans v1⟩, ⟨s2, u2, v2⟩, ⟨?_, ?_⟩,
    ⟨?_, ?_⟩, ⟨?_, ?_⟩⟩
  · rw [s3 B (Or.inr (Or.inl rfl)) (fun e => hAB e.symm)]
    rfl
  · rw [s3 C (Or.inr (Or.inr rfl)) (fun e => hAC e.symm)]
    rfl
  · rw [u3 A (Or.inl rfl) hAB]
    rfl
  · rw [u3 C (Or.inr (Or.inr rfl)) (fun e => hBC e.symm)]
    rfl
  · rw [v3 A (Or.inl rfl) hAC]
    rfl
  · rw [v3 B (Or.inr (Or.inl rfl)) hBC]
    rfl

/-! ## The later theorems at concrete states -/

theorem tableOf_alarm (st : ProcState) (r1 r2 r3 : Process) (curr : Nat)
    (h1 : r1.alarm = 0) (h2 : r2.alarm = 0) (h3 : r3.alarm = 0) (i : Nat) :
    ((kernelOf (tableOf st r1 r2 r3) curr).proctab i).alarm = 0 := by
  simp only [kernelOf, tableOf]
  split_ifs
  · exact h1
  · exact h2
  · exact h3
  · rfl

theorem beforeChoice_quiet (cfg : Config) (k : Kernel) (h : ∀ i, (k.proctab i).alarm = 0) :
    beforeChoice cfg k = reclassify cfg k ∧
    ∀ i, ((beforeChoice cfg k).proctab i).alarm = 0 := by
  have hal : ∀ i, ((reclassify cfg k).proctab i).alarm = 0 := by
    intro i
    rw [reclassify_alarm]
    exact h i
  have e : beforeChoice cfg k = reclassify cfg k := checkAlarms_quiet cfg _ hal
  exact ⟨e, by rw [e]; exact hal⟩

/-- Instance of C11: process 2 is preempted, process 1 is dispatched and is the
only RUNNING process afterwards. -/
theorem single_running_witness :
    (yield sampleCfg preemptKernel).curr_proc = 1 ∧
    ((yield sampleCfg preemptKernel).proctab 1).state = ProcState.RUNNING ∧
    ((yield sampleCfg preemptKernel).proctab 2).state ≠ ProcState.RUNNING :=
  have h := single_running sampleCfg (fun _ _ e => e) preemptKernel (by
    intro i hi
    have hi2 : i ≠ 2 := hi
    simp only [preemptKernel, kernelOf, tableOf]
    split_ifs <;> simp [userProc])
  ⟨by decide, (h.1 1).2 (by decide), fun e => absurd ((h.1 2).1 e) (by decide)⟩

/-- C12 as stated fails: with three bands only, a preempted process of band 3
stays in band 3; processes with equal priority 100 above `PRIO_USER = 40` then
lose against the process just dispatched, whose priority was reset, and the
first process is dispatched three times.  IDLE (band 3, priority 1000) never
out-ranks them, no alarm is armed and no counter reaches the aging threshold
10. -/
theorem scenario_cex :
    (beforeChoice threeBandCfg threeBandKernel).proctab 1 = highProc ∧
    (beforeChoice threeBandCfg threeBandKernel).proctab 2 = highProc ∧
    (beforeChoice threeBandCfg threeBandKernel).proctab 3 = highProc ∧
    (highProc.state = ProcState.READY ∧ highProc.queue = 3 ∧ highProc.counter = 0 ∧
      highProc.priority = 100 ∧ highProc.nice = 20 ∧ highProc.alarm = 0) ∧
    chosen threeBandCfg threeBandKernel = 1 ∧
    chosen threeBandCfg (yield threeBandCfg threeBandKernel) = 1 ∧
    chosen threeBandCfg (yield threeBandCfg (yield threeBandCfg threeBandKernel)) = 1 ∧
    ¬ (chosen threeBandCfg threeBandKernel = 1 ∧
      chosen threeBandCfg (yield threeBandCfg threeBandKernel) = 2 ∧
      chosen threeBandCfg (yield threeBandCfg (yield threeBandCfg threeBandKernel)) = 3) := by
  decide

/-- Instance of C12, amended: four bands, IDLE in band 4, processes 1, 2, 3. -/
theorem scenario_witness :
    (chosen sampleCfg tieKernel = 1 ∧ chosen sampleCfg (yield sampleCfg tieKernel) = 2 ∧
      chosen sampleCfg (yield sampleCfg (yield sampleCfg tieKernel)) = 3) ∧
    (((yield sampleCfg tieKernel).proctab 1).counter = 3 * 50 ∧
      ((yield sampleCfg (yield sampleCfg tieKernel)).proctab 2).counter = 3 * 50 ∧
      ((yield sampleCfg (yield sampleCfg (yield sampleCfg tieKernel))).proctab 3).counter =
        3 * 50) :=
  have hal : ∀ i, (tieKernel.proctab i).alarm = 0 :=
    tableOf_alarm _ _ _ _ 0 rfl rfl rfl
  have h := scenario_abc sampleCfg tieKernel 1 2 3 40 20 (by decide) (by decide) (by decide)
    ⟨by decide, by decide, by decide, by decide, by decide, by decide, by decide, by decide,
      by decide, by decide,
      fun i hi h1 h2 h3 => by rcases sample_scan i hi with e | e | e <;> omega,
      by decide, (beforeChoice_quiet sampleCfg tieKernel hal).2⟩
    (by rintro X (rfl | rfl | rfl) <;> decide)
  ⟨h.1, h.2.2.1⟩

/-- Instance of C13: `AGING_FACTOR = 1`, four bands; process 2 starts in band 2
and is passed over in four cycles, process 1 being dispatched each time. -/
theorem aging_termination_witness :
    ((runCycles agingOneCfg agingKernel [wakeFirst, wakeFirst, wakeFirst, wakeFirst]).proctab
      2).queue = 1 :=
  aging_termination agingOneCfg (by decide) 2 (by decide) (by decide) 2 (by decide) (by decide)
    agingKernel (by decide) (by decide) (by decide)
    [wakeFirst, wakeFirst, wakeFirst, wakeFirst]
    ⟨by decide, by decide, by decide, by decide, by decide, by decide, by decide, by decide,
      trivial⟩
    (by decide)

/-- C14 as stated fails: IDLE, preempted in band 4, ties with the READY process 1
of band 4 (same priority, nice and counter) and, being the incumbent, is
dispatched again although process 1 is READY; all bands are within `[1, 4]`. -/
theorem idle_dispatch_cex :
    BandsOk sampleCfg idleTieKernel ∧
    inScan sampleCfg 1 ∧ 1 ≠ sampleCfg.IDLE ∧
    ((beforeChoice sampleCfg idleTieKernel).proctab 1).state = ProcState.READY ∧
    chosen sampleCfg idleTieKernel = sampleCfg.IDLE ∧
    (yield sampleCfg idleTieKernel).curr_proc = sampleCfg.IDLE :=
  ⟨bandsOk_tableOf sampleCfg _ _ _ _ 0 (by decide) (by decide) (by decide) (by decide),
    by decide, by decide, by decide, by decide, by decide⟩

/-- Instance of C14, amended: in that state IDLE and process 1 are in the same
band and the weight of IDLE is not larger. -/
theorem idle_dispatch_witness :
    ((beforeChoice sampleCfg idleTieKernel).proctab 0).queue =
      ((beforeChoice sampleCfg idleTieKernel).proctab 1).queue ∧
    weight ((beforeChoice sampleCfg idleTieKernel).proctab 0) ≤
      weight ((beforeChoice sampleCfg idleTieKernel).proctab 1) :=
  have h := (idle_dispatched_unbeaten sampleCfg idleTieKernel 1 (by decide) (by decide)
    (by decide) (by decide)).2 (by decide)
  h.resolve_left (by decide)

/-- C15 as stated fails: slot 1 is not valid (its `father` is 0) but its record
says READY; the alarm loop skips it, the selection loop selects it and the
dispatch changes its state, priority and counter. -/
theorem invalid_slot_cex :
    fatherCfg.IS_VALID (staleKernel.proctab 1) = false ∧
    fatherCfg.IS_VALID ((reclassify fatherCfg staleKernel).proctab 1) = false ∧
    (staleKernel.proctab 1).state = ProcState.READY ∧
    alarmsSent (yield fatherCfg staleKernel) 1 = 0 ∧
    chosen fatherCfg staleKernel = 1 ∧
    ((yield fatherCfg staleKernel).proctab 1).state = ProcState.RUNNING ∧
    (yield fatherCfg staleKernel).proctab 1 ≠ staleKernel.proctab 1 := by
  decide

/-- Instance of C15, amended: the DEAD slot 3 is invalid and its alarm is
overdue; it is not signalled, keeps its alarm, is not selected and is not
changed. -/
theorem invalid_slot_witness :
    alarmDue deadAlarmKernel.ticks (deadAlarmKernel.proctab 3) ∧
    alarmsSent (yield sampleCfg deadAlarmKernel) 3 = alarmsSent deadAlarmKernel 3 ∧
    ((yield sampleCfg deadAlarmKernel).proctab 3).alarm = 50 ∧
    chosen sampleCfg deadAlarmKernel ≠ 3 ∧
    (yield sampleCfg deadAlarmKernel).proctab 3 = deadAlarmKernel.proctab 3 :=
  have h := invalid_slot_skipped sampleCfg deadAlarmKernel 3 (by decide)
  have h3 := h.2.2 (by decide) (by decide) (by decide)
  ⟨by decide, h.1, h.2.1, h3.1, h3.2⟩

/-- Instance of C17: process 2 loses the tie against process 1. -/
theorem passed_over_witness :
    (yield sampleCfg tieKernel).proctab 2 = userProc ProcState.READY 3 1 0 :=
  (passed_over_credit sampleCfg tieKernel 2 (by decide) (by decide) (by decide) (by decide)
    (by decide)).trans (by decide)

/-- Instance of C19: processes 1 and 2 are READY in band 3 with weights 59 and
55; process 2 is dispatched. -/
theorem lowest_weight_witness :
    (yield sampleCfg weightKernel).curr_proc = chosen sampleCfg weightKernel ∧
    chosen sampleCfg weightKernel = 2 :=
  have h := lowest_weight_wins sampleCfg weightKernel 3 ⟨1, by decide, by decide⟩
    (by
      intro p hp hr
      rcases sample_scan p hp with rfl | rfl | rfl
      · decide
      · decide
      · exact absurd hr (by decide))
    (by decide) (by decide)
    (Or.inr (by
      intro p hp hr
      rcases sample_scan p hp with rfl | rfl | rfl
      · decide
      · decide
      · exact absurd hr (by decide)))
  ⟨h.1, by decide⟩

/-- Instance of C20: the dispatched process is in band 3, as process 2 was. -/
theorem best_band_witness :
    ((yield sampleCfg tieKernel).proctab (chosen sampleCfg tieKernel)).queue ≤
      ((beforeChoice sampleCfg tieKernel).proctab 2).queue :=
  (best_band_wins sampleCfg tieKernel 2 (Or.inl (by decide)) (by decide)).1

/-! ## Promotion of an outgoing process that has blocked -/

/-- A record that cannot reach the aging threshold keeps its band through the
selection loop. -/
theorem chooseNext_band_noAging (cfg : Config) (k : Kernel) (c : Nat) (hci : c ≠ cfg.IDLE)
    (hna : noAging cfg (k.proctab c)) :
    ((chooseNext cfg k).1.proctab c).queue = (k.proctab c).queue := by
  by_cases h : inScan cfg c ∧ (k.proctab c).state = ProcState.READY
  · have ha := agedRec_noAging cfg (k.proctab c) hna
    rcases chooseNext_passed cfg k c h.1 hci h.2 with ⟨_, e⟩ | ⟨_, e | e⟩
    · rw [e, ha.1]
    · rw [e, ha.2]
      rfl
    · rw [e, ha.1]
      rfl
  · exact chooseNext_queue_unscanned cfg k c h

/-- A record with counter 0 whose band is 1 or lies below `QUEUE_AMOUNT` cannot
reach the aging threshold within one cycle when `AGING_FACTOR ≥ 1`. -/
theorem noAging_fresh (cfg : Config) (r : Process) (hAF : 1 ≤ cfg.AGING_FACTOR)
    (h0 : r.counter = 0) (hq : r.queue = 1 ∨ r.queue < cfg.QUEUE_AMOUNT) : noAging cfg r := by
  unfold noAging
  rcases hq with h | h
  · exact Or.inl h
  · right
    rw [h0]
    have h2 : (2 : Int) ≤ cfg.QUEUE_AMOUNT + 1 - r.queue := by omega
    nlinarith

/-- An outgoing process that has blocked and is READY when candidate selection
begins has counter 0 there, if it had counter 0 whenever it entered the cycle
READY and signal delivery wakes processes up as `sched` does. -/
theorem fresh_at_selection (cfg : Config) (hw : SigWakesBySched cfg) (k : Kernel)
    (hi : k.curr_proc ≠ cfg.IDLE)
    (hr : (k.proctab k.curr_proc).state ≠ ProcState.RUNNING)
    (hd : (k.proctab k.curr_proc).state ≠ ProcState.DEAD)
    (h0 : (k.proctab k.curr_proc).state = ProcState.READY →
      (k.proctab k.curr_proc).counter = 0) :
    ((beforeChoice cfg k).proctab k.curr_proc).state = ProcState.READY →
      ((beforeChoice cfg k).proctab k.curr_proc).counter = 0 := by
  have hrec := (reclassify_curr cfg k).2 hr hd hi
  have hst : ((reclassify cfg k).proctab k.curr_proc).state = (k.proctab k.curr_proc).state := by
    rw [hrec]
  have hct : ((reclassify cfg k).proctab k.curr_proc).counter =
      (k.proctab k.curr_proc).counter := by
    rw [hrec]
  unfold beforeChoice
  rw [(checkAlarms_spec cfg _).2.1 k.curr_proc]
  by_cases hf : inScan cfg k.curr_proc ∧
      fires cfg (reclassify cfg k).ticks ((reclassify cfg k).proctab k.curr_proc)
  · rw [if_pos hf]
    intro h
    rcases hw _ _ h with e | ⟨e1, e2⟩
    · exact e
    · have e3 : ((reclassify cfg k).proctab k.curr_proc).state = ProcState.READY := e1
      rw [hst] at e3
      rw [e2]
      exact hct.trans (h0 e3)
  · rw [if_neg hf]
    intro h
    rw [hst] at h
    rw [hct]
    exact h0 h

/-- C4 (promotion on voluntary yield): if the outgoing process `c` is not IDLE
and enters the cycle in a state other than RUNNING and DEAD, with band `q`, then
at the end of the cycle its band is `max (q - 1) 1`.  The standing facts used
are: `q` lies within `[1, QUEUE_AMOUNT]`, `AGING_FACTOR ≥ 1`, signal delivery
leaves bands alone, and a process `c` that is READY when candidate selection
begins has counter 0 (`sched`, the only writer of READY, zeroes the counter, and
no selection loop has run on `c` since; see `fresh_at_selection`).  The process
`c` may have entered the cycle READY or have been woken up by the alarm signal
of this cycle. -/
theorem promotion_on_block (cfg : Config) (hs : SigKeepsQueue cfg)
    (hAF : 1 ≤ cfg.AGING_FACTOR) (k : Kernel)
    (hi : k.curr_proc ≠ cfg.IDLE)
    (hr : (k.proctab k.curr_proc).state ≠ ProcState.RUNNING)
    (hd : (k.proctab k.curr_proc).state ≠ ProcState.DEAD)
    (hq : 1 ≤ (k.proctab k.curr_proc).queue)
    (hqQ : (k.proctab k.curr_proc).queue ≤ cfg.QUEUE_AMOUNT)
    (hn : ((beforeChoice cfg k).proctab k.curr_proc).state = ProcState.READY →
      ((beforeChoice cfg k).proctab k.curr_proc).counter = 0) :
    ((yield cfg k).proctab k.curr_proc).queue = max ((k.proctab k.curr_proc).queue - 1) 1 := by
  have hband : ((beforeChoice cfg k).proctab k.curr_proc).queue =
      max ((k.proctab k.curr_proc).queue - 1) 1 := by
    unfold beforeChoice
    rw [checkAlarms_queue cfg hs, (reclassify_curr cfg k).2 hr hd hi]
    simp only
    split_ifs with h
    · rw [max_eq_left (by omega)]
    · rw [max_eq_right (by omega)]
      omega
  unfold yield
  rw [dispatch_queue, ← hband]
  by_cases hy : ((beforeChoice cfg k).proctab k.curr_proc).state = ProcState.READY
  · refine chooseNext_band_noAging cfg _ _ hi (noAging_fresh cfg _ hAF (hn hy) ?_)
    rw [hband]
    rcases le_total ((k.proctab k.curr_proc).queue - 1) 1 with h | h
    · exact Or.inl (max_eq_right h)
    · right
      rw [max_eq_left h]
      omega
  · exact chooseNext_queue_notReady cfg _ _ hy

/-- Instance of C4: process 1 has gone to sleep in band 3 and its alarm is due;
the alarm signal of the cycle wakes it up, so that it is READY with counter 0
when candidate selection begins, and it ends the cycle in band 2. -/
theorem promotion_witness :
    (sleeperKernel.proctab 1).state = ProcState.OTHER 4 ∧
    ((beforeChoice wakeCfg sleeperKernel).proctab 1).state = ProcState.READY ∧
    ((yield wakeCfg sleeperKernel).proctab 1).queue = max (3 - 1) 1 :=
  ⟨by decide, by decide,
    promotion_on_block wakeCfg wakeCfg_queue (by decide) sleeperKernel (by decide)
      (by decide) (by decide) (by decide) (by decide)
      (fresh_at_selection wakeCfg wakeCfg_wakes sleeperKernel (by decide) (by decide)
        (by decide) (by decide))⟩

end Nanvix
